import Mathlib

/-!
Verification of the sub2port routing-table subsystem.

This file gives a shallow embedding of the Go source (the reverse proxy in
the repository: `route`, `hostEntry`, `binding`, `routeTable`, `proxy`,
`addRoutes`, `removeRoutes`, `detectNetwork`, the event loop) and proves
or refutes the specification claims about it.

Go maps are modelled as association lists with unique keys (`lookupA`,
`upsert`, `eraseA`); Go strings are modelled as Lean `String`, with the
character-level helpers below standing in for the `strings` package
functions the source uses.  Network I/O (container inspection, the event
stream) is modelled by passing the fetched data in as explicit arguments;
a fetch failure is `Option.none`.  A Go runtime panic is modelled by an
`Option.none` result of the operation itself.
-/

set_option autoImplicit false

namespace Sub2Port

/-! ## String helpers (models of the `strings`/`net` functions the source uses) -/

/-- Model of `strings.Split(s, sep)[0]` for a one-character separator:
the prefix of `s` before the first occurrence of `c`. -/
def prefixBefore (c : Char) (s : String) : String :=
  ⟨s.data.takeWhile (fun x => x ≠ c)⟩

/-- Model of `strings.Split(request.Host, ":")[0]`: strip any port suffix. -/
def stripPort (s : String) : String := prefixBefore ':' s

/-- Model of `strings.Split(s, sep)` for a one-character separator:
all pieces between occurrences of `c`, empty pieces kept. -/
def splitChar (c : Char) : List Char → List (List Char)
  | [] => [[]]
  | x :: rest =>
    let r := splitChar c rest
    if x = c then [] :: r
    else (x :: r.headI) :: r.tail

/-- Model of `strings.TrimSpace`: drop whitespace from both ends. -/
def goTrimSpace (s : String) : String :=
  ⟨((s.data.dropWhile Char.isWhitespace).reverse.dropWhile Char.isWhitespace).reverse⟩

/-- Model of `strings.TrimPrefix(name, "/")`. -/
def trimSlash (s : String) : String :=
  match s.data with
  | '/' :: rest => ⟨rest⟩
  | _ => s

/-- First env entry with prefix `SUB2PORT=`, with the prefix stripped
(the loop in `addRoutes` breaks on the first match). -/
def sub2portConfig : List String → String
  | [] => ""
  | e :: rest =>
    if "SUB2PORT=".data.isPrefixOf e.data then ⟨e.data.drop 9⟩
    else sub2portConfig rest

/-- Index of the last occurrence of `c` in the list, if any. -/
def lastIdxOf (c : Char) : List Char → Option Nat
  | [] => none
  | x :: rest =>
    match lastIdxOf c rest with
    | some i => some (i + 1)
    | none => if x = c then some 0 else none

/-- Index of the first occurrence of `c` in the list, if any. -/
def firstIdxOf (c : Char) : List Char → Option Nat
  | [] => none
  | x :: rest => if x = c then some 0 else (firstIdxOf c rest).map (· + 1)

/-- Model of `net.SplitHostPort`: `some (host, port)` on success, `none`
on any of its error returns (missing port, too many colons, bracket
errors).  Follows the Go implementation: find the last colon; handle a
leading `[`...`]` host; otherwise reject a colon inside the host part and
any bracket anywhere. -/
def splitHostPort (hostport : String) : Option (String × String) :=
  let s := hostport.data
  match lastIdxOf ':' s with
  | none => none
  | some i =>
    if s.headI = '[' ∧ s ≠ [] then
      match firstIdxOf ']' s with
      | none => none
      | some e =>
        if e + 1 = s.length then none
        else if e + 1 = i then
          if (s.drop 1).contains '[' then none
          else if (s.drop (e + 1)).contains ']' then none
          else some (⟨(s.drop 1).take (e - 1)⟩, ⟨s.drop (i + 1)⟩)
        else none
    else
      if (s.take i).contains ':' then none
      else if s.contains '[' then none
      else if s.contains ']' then none
      else some (⟨s.take i⟩, ⟨s.drop (i + 1)⟩)

/-! ## Association lists standing in for Go maps -/

/-- Go map read `m[k]` (as the comma-ok form). -/
def lookupA {α : Type} : List (String × α) → String → Option α
  | [], _ => none
  | (k, v) :: rest, key => if k = key then some v else lookupA rest key

/-- Go map write `m[k] = v`: replace the binding if the key is present,
append it otherwise. -/
def upsert {α : Type} : List (String × α) → String → α → List (String × α)
  | [], key, val => [(key, val)]
  | (k, v) :: rest, key, val =>
    if k = key then (key, val) :: rest else (k, v) :: upsert rest key val

/-- Go map `delete(m, k)`. -/
def eraseA {α : Type} : List (String × α) → String → List (String × α)
  | [], _ => []
  | (k, v) :: rest, key => if k = key then rest else (k, v) :: eraseA rest key

/-- The keys of an association list are pairwise distinct (always true of
a Go map). -/
abbrev keysNodup {α : Type} (l : List (String × α)) : Prop :=
  (l.map Prod.fst).Nodup

/-! ## Data model (source types `route`, `hostEntry`, `binding`, `routeTable`) -/

/-- Source type `route`: one backend endpoint. -/
structure route where
  Name : String
  Host : String
  Port : String
deriving Repr, DecidableEq

/-- Source type `hostEntry`: the backends registered for one hostname and
the round-robin counter (a Go `uint64`). -/
structure hostEntry where
  backends : List route
  counter : Nat
deriving Repr, DecidableEq

/-- Source type `binding`: a reverse-index record `(hostname, container name)`. -/
structure binding where
  Domain : String
  Name : String
deriving Repr, DecidableEq

/-- Source type `routeTable`: the hostname→entry map and the reverse index
from container id to its recorded bindings. -/
structure routeTable where
  hosts : List (String × hostEntry)
  containers : List (String × List binding)
deriving Repr, DecidableEq

def routeTable.empty : routeTable := ⟨[], []⟩

/-- Port-binding record from the Docker inspect payload. -/
structure portBinding where
  HostIP : String
  HostPort : String
deriving Repr, DecidableEq

/-- Source type `dockerInspect`: the container metadata the source reads.
`ExposedPorts` and `Networks` are Go maps; the lists record the iteration
order the Go runtime happened to produce. -/
structure dockerInspect where
  Name : String
  Env : List String
  ExposedPorts : List String
  Ports : List (String × List portBinding)
  Networks : List (String × String)
deriving Repr, DecidableEq

/-- Source type `dockerEvent` (`EvType` models its `Type` field, whose name
is reserved in Lean). -/
structure dockerEvent where
  EvType : String
  Action : String
  ActorID : String
  Attributes : List (String × String)
deriving Repr, DecidableEq

/-! ## detectNetwork -/

/-- The loop in `detectNetwork` choosing the network: the first name that
is not one of the defaults, or `""` when there is none. -/
def findCustom : List String → String
  | [] => ""
  | n :: rest =>
    if n ≠ "bridge" ∧ n ≠ "host" ∧ n ≠ "none" then n else findCustom rest

/-- The inner loop over one port's bindings: the first nonempty `HostPort`. -/
def firstHostPort : List portBinding → Option String
  | [] => none
  | b :: rest => if b.HostPort ≠ "" then some b.HostPort else firstHostPort rest

/-- The outer loop in `detectNetwork` over the `Ports` map values:
take each group's first bound port and stop as soon as the current
value differs from `"80"`. -/
def detectPortLoop : List (List portBinding) → String → String
  | [], port => port
  | g :: rest, port =>
    let port' := match firstHostPort g with
      | some p => p
      | none => port
    if port' ≠ "80" then port' else detectPortLoop rest port'

/-- Source function `detectNetwork`, with the self-inspection result passed
in (`container`) together with the container id read from `/etc/hostname`.
Returns the chosen network name and host port, or the error message. -/
def detectNetwork (container : dockerInspect) (containerID : String) :
    Except String (String × String) :=
  let network := findCustom (container.Networks.map Prod.fst)
  if network = "" then
    .error ("no custom network found on container " ++ containerID)
  else
    .ok (network, detectPortLoop (container.Ports.map Prod.snd) "80")

/-! ## proxy -/

/-- The dispatcher's outcome: a bad-gateway error response with its body,
or a forward to the selected backend. -/
inductive Response where
  | badGateway (body : String)
  | forward (backend : route)
deriving Repr, DecidableEq

/-- Source function `proxy` on one request, returning the new table and the
response.  `none` models the runtime panic `proxy` hits when an entry has
zero backends (`counter % 0`).  On a hit the entry's counter selects the
backend by position and is incremented (a `uint64`, hence modulo `2 ^ 64`). -/
def proxy (t : routeTable) (requestHost : String) : Option (routeTable × Response) :=
  let host := stripPort requestHost
  match lookupA t.hosts host with
  | none => some (t, .badGateway ("no backend for " ++ host))
  | some entry =>
    if entry.backends.length = 0 then none
    else
      let idx := entry.counter % entry.backends.length
      let entry' : hostEntry := ⟨entry.backends, (entry.counter + 1) % 2 ^ 64⟩
      some ({ t with hosts := upsert t.hosts host entry' },
        .forward (entry.backends.getD idx ⟨"", "", ""⟩))

/-- `n` consecutive `proxy` calls for the same request host, keeping only
the table (`none` as soon as one call panics). -/
def proxyN (t : routeTable) (requestHost : String) : Nat → Option routeTable
  | 0 => some t
  | n + 1 =>
    match proxyN t requestHost n with
    | none => none
    | some t' => (proxy t' requestHost).map Prod.fst

/-! ## addRoutes -/

/-- The default port used for a bare-hostname entry: the first exposed
port (`"8080/tcp"` → `"8080"`), else `"80"`. -/
def defaultPortOf : List String → String
  | [] => "80"
  | p :: _ => prefixBefore '/' p

/-- The per-entry parse in the `addRoutes` loop: trimmed, empty entries
skipped, `host:port` split when `net.SplitHostPort` succeeds, the whole
entry as a bare hostname with the default port otherwise. -/
def parseEntries (config : String) (defaultPort : String) : List (String × String) :=
  (((splitChar ',' config.data).map (fun l => goTrimSpace ⟨l⟩)).filter
      (fun e => e ≠ "")).map
    (fun e =>
      match splitHostPort e with
      | some (d, p) => (d, p)
      | none => (e, defaultPort))

/-- One iteration of the `addRoutes` loop on the hosts map: create the
entry if needed and append the backend. -/
def addBackend (hosts : List (String × hostEntry)) (d : String) (r : route) :
    List (String × hostEntry) :=
  match lookupA hosts d with
  | none => upsert hosts d ⟨[r], 0⟩
  | some e => upsert hosts d ⟨e.backends ++ [r], e.counter⟩

/-- The whole `addRoutes` loop over the parsed entries. -/
def addAll (name ip : String) (hosts : List (String × hostEntry)) :
    List (String × String) → List (String × hostEntry)
  | [] => hosts
  | (d, p) :: rest => addAll name ip (addBackend hosts d ⟨name, ip, p⟩) rest

/-- Source function `addRoutes` after a successful inspect: parse the
`SUB2PORT` config, require an address on the resolved network, append one
backend per entry and replace the container's binding list. -/
def addRoutesOk (networkName containerID : String) (c : dockerInspect)
    (t : routeTable) : routeTable :=
  let config := sub2portConfig c.Env
  if config = "" then t
  else
    match lookupA c.Networks networkName with
    | none => t
    | some ip =>
      if ip = "" then t
      else
        let name := trimSlash c.Name
        let entries := parseEntries config (defaultPortOf c.ExposedPorts)
        { hosts := addAll name ip t.hosts entries,
          containers := upsert t.containers containerID
            (entries.map (fun e => ⟨e.1, name⟩)) }

/-- Source function `addRoutes`.  `fetch` is the inspect result (`none`
models a failed metadata fetch).  On a failed fetch the source logs
`containerID[:12]`, which panics for an identifier shorter than 12 bytes:
that panic is the `none` result. -/
def addRoutes (networkName containerID : String) (fetch : Option dockerInspect)
    (t : routeTable) : Option routeTable :=
  match fetch with
  | none => if containerID.utf8ByteSize < 12 then none else some t
  | some c => some (addRoutesOk networkName containerID c t)

/-! ## removeRoutes -/

/-- The inner loop of `removeRoutes`: remove the first backend whose name
matches, leave the list unchanged when none does. -/
def removeBackend (name : String) : List route → List route
  | [] => []
  | r :: rest => if r.Name = name then rest else r :: removeBackend name rest

/-- One binding's step in `removeRoutes`: skip when the entry is gone,
otherwise remove the backend and delete the entry once empty. -/
def removeBinding (t : routeTable) (b : binding) : routeTable :=
  match lookupA t.hosts b.Domain with
  | none => t
  | some e =>
    let backends' := removeBackend b.Name e.backends
    if backends'.length = 0 then { t with hosts := eraseA t.hosts b.Domain }
    else { t with hosts := upsert t.hosts b.Domain ⟨backends', e.counter⟩ }

/-- Source function `removeRoutes`: walk the container's recorded bindings,
then drop the container from the reverse index. -/
def removeRoutes (containerID : String) (t : routeTable) : routeTable :=
  let t' := ((lookupA t.containers containerID).getD []).foldl removeBinding t
  { t' with containers := eraseA t'.containers containerID }

/-! ## Event processing -/

/-- One event's handling in `eventLoop`.  A missing attribute reads as `""`
(Go map read).  `fetch` supplies the inspect result `addRoutes` would get;
`none` propagates the `addRoutes` panic. -/
def processEvent (networkName : String) (fetch : String → Option dockerInspect)
    (t : routeTable) (ev : dockerEvent) : Option routeTable :=
  if ev.EvType = "network" ∧ (lookupA ev.Attributes "name").getD "" = networkName then
    let containerID := (lookupA ev.Attributes "container").getD ""
    if ev.Action = "connect" then
      some { t with containers := upsert t.containers containerID [] }
    else
      some (removeRoutes containerID t)
  else
    if ev.EvType = "container" then
      match lookupA t.containers ev.ActorID with
      | none => some t
      | some _ => addRoutes networkName ev.ActorID (fetch ev.ActorID) t
    else
      some t

/-- Source function `eventLoop` on one stream: the stream is the sequence
of decode results, `none` being undecodable data.  The loop returns (with
the error) at the end of the stream or at the first undecodable item; a
`none` result is an `addRoutes` panic. -/
def eventLoop (networkName : String) (fetch : String → Option dockerInspect)
    (t : routeTable) : List (Option dockerEvent) → Option routeTable
  | [] => some t
  | none :: _ => some t
  | some ev :: rest =>
    match processEvent networkName fetch t ev with
    | none => none
    | some t' => eventLoop networkName fetch t' rest

/-- The backoff `watchEvents` sleeps after a failed stream
(`time.Sleep(time.Second)`): one time unit. -/
def backoffSeconds : Nat := 1

/-- The reconnect loop of `watchEvents`: run one stream, sleep the backoff,
reopen.  The argument lists the successive streams. -/
def watchLoop (networkName : String) (fetch : String → Option dockerInspect)
    (t : routeTable) : List (List (Option dockerEvent)) → Option routeTable
  | [] => some t
  | cyc :: rest =>
    match eventLoop networkName fetch t cyc with
    | none => none
    | some t' => watchLoop networkName fetch t' rest

/-! ## Operation sequences over the routing table -/

/-- A routing-table mutation: an `addRoutes` call (with its fetch result)
or a `removeRoutes` call. -/
inductive tableOp where
  | add (containerID : String) (fetch : Option dockerInspect)
  | remove (containerID : String)

def execOp (networkName : String) (t : routeTable) : tableOp → Option routeTable
  | .add cid fetch => addRoutes networkName cid fetch t
  | .remove cid => some (removeRoutes cid t)

/-- Run a sequence of add/remove operations (`none` once one panics). -/
def runOps (networkName : String) (t : routeTable) : List tableOp → Option routeTable
  | [] => some t
  | o :: os =>
    match execOp networkName t o with
    | none => none
    | some t' => runOps networkName t' os

/-- Number of `(domain, name)` bindings in one binding list. -/
def cntB (bs : List binding) (d n : String) : Nat :=
  bs.countP (fun b => b.Domain = d ∧ b.Name = n)

/-- Number of `(domain, name)` bindings recorded anywhere in a reverse
index. -/
def bindingCountL (cs : List (String × List binding)) (d n : String) : Nat :=
  (cs.map (fun p => cntB p.2 d n)).sum

/-- Number of bindings for `(domain, name)` recorded anywhere in the
reverse index. -/
def bindingCount (t : routeTable) (d n : String) : Nat :=
  bindingCountL t.containers d n

/-- Number of backends for `name` in the host entry of `domain`. -/
def backendCount (t : routeTable) (d n : String) : Nat :=
  match lookupA t.hosts d with
  | none => 0
  | some e => e.backends.countP (fun r => r.Name = n)

/-- The built-in default networks `detectNetwork` skips. -/
abbrev isDefaultNet (nm : String) : Prop :=
  nm = "bridge" ∨ nm = "host" ∨ nm = "none"

/-- All externally bound (nonempty) host ports appearing anywhere in the
container's port bindings. -/
def hostPorts (c : dockerInspect) : List String :=
  (c.Ports.map Prod.snd).flatMap
    (fun g => g.filterMap (fun b => if b.HostPort = "" then none else some b.HostPort))

/-- Written from the claim's words (C7), for comparison with the code's
parse: the config value is split on commas; each non-empty trimmed entry
that parses as `hostname:port` contributes a backend with that port under
that hostname, and each other (bare-hostname) entry contributes a backend
with the default port under the whole entry as hostname. -/
def specParsedBackends (config defaultPort name ip d : String) : List route :=
  (((splitChar ',' config.data).map (fun l => goTrimSpace ⟨l⟩)).filter
      (fun e => e ≠ "")).filterMap
    (fun e =>
      match splitHostPort e with
      | some (h, p) => if h = d then some ⟨name, ip, p⟩ else none
      | none => if e = d then some ⟨name, ip, defaultPort⟩ else none)

/-- The backends one `addRoutes` call contributes to domain `d`. -/
def contrib (name ip : String) (entries : List (String × String)) (d : String) :
    List route :=
  entries.filterMap (fun e => if e.1 = d then some ⟨name, ip, e.2⟩ else none)

/-- How an add combines an existing entry with the newly contributed
backends: no entry appears when nothing is contributed, a fresh entry has
counter `0`, contributed backends are appended to an existing entry. -/
def combineEntry : Option hostEntry → List route → Option hostEntry
  | none, [] => none
  | none, r :: rs => some ⟨r :: rs, 0⟩
  | some e, rs => some ⟨e.backends ++ rs, e.counter⟩

/-- No host entry with an empty backend list exists. -/
def noEmptyEntry (t : routeTable) : Prop :=
  ∀ d e, lookupA t.hosts d = some e → e.backends ≠ []

/-- The master invariant: Go-map key uniqueness, no empty host entry, and
for every `(domain, name)` at most as many bindings as matching backends. -/
def Inv (t : routeTable) : Prop :=
  keysNodup t.hosts ∧ keysNodup t.containers ∧ noEmptyEntry t ∧
    ∀ d n, bindingCount t d n ≤ backendCount t d n

/-! ## Association-list lemmas -/

theorem lookupA_eq_none_of_not_mem {α : Type} (l : List (String × α)) (k : String)
    (h : k ∉ l.map Prod.fst) : lookupA l k = none := by
  induction l with
  | nil => rfl
  | cons p rest ih =>
    simp only [List.map_cons, List.mem_cons] at h
    push_neg at h
    have hp : p.1 ≠ k := fun he => h.1 he.symm
    simp [lookupA, hp, ih h.2]

theorem lookupA_upsert_self {α : Type} (l : List (String × α)) (k : String) (v : α) :
    lookupA (upsert l k v) k = some v := by
  induction l with
  | nil => simp [upsert, lookupA]
  | cons p rest ih =>
    by_cases h : p.1 = k
    · simp [upsert, h, lookupA]
    · simp [upsert, h, lookupA, ih]

theorem lookupA_upsert_ne {α : Type} (l : List (String × α)) (k k' : String) (v : α)
    (h : k' ≠ k) : lookupA (upsert l k v) k' = lookupA l k' := by
  have hne : ¬ k = k' := fun he => h he.symm
  induction l with
  | nil => simp [upsert, lookupA, hne]
  | cons p rest ih =>
    by_cases hp : p.1 = k
    · simp [upsert, hp, lookupA, hne]
    · simp only [upsert, hp, if_false, lookupA]
      by_cases hp' : p.1 = k'
      · simp [hp']
      · simp [hp', ih]

theorem lookupA_eraseA_ne {α : Type} (l : List (String × α)) (k k' : String)
    (h : k' ≠ k) : lookupA (eraseA l k) k' = lookupA l k' := by
  induction l with
  | nil => rfl
  | cons p rest ih =>
    by_cases hp : p.1 = k
    · have hp' : ¬ p.1 = k' := by
        intro he
        exact h (by rw [← he, hp])
      have hne : ¬ k = k' := fun he => h he.symm
      simp [eraseA, hp, lookupA, hp', hne]
    · simp only [eraseA, hp, if_false, lookupA]
      by_cases hp' : p.1 = k'
      · simp [hp']
      · simp [hp', ih]

theorem lookupA_eraseA_self {α : Type} (l : List (String × α)) (k : String)
    (h : keysNodup l) : lookupA (eraseA l k) k = none := by
  induction l with
  | nil => rfl
  | cons p rest ih =>
    rcases List.nodup_cons.mp h with ⟨h1, h2⟩
    by_cases hp : p.1 = k
    · simp only [eraseA, hp, if_true]
      exact lookupA_eq_none_of_not_mem rest k (hp ▸ h1)
    · simp [eraseA, hp, lookupA, ih h2]

theorem eraseA_of_not_mem {α : Type} (l : List (String × α)) (k : String)
    (h : lookupA l k = none) : eraseA l k = l := by
  induction l with
  | nil => rfl
  | cons p rest ih =>
    by_cases hp : p.1 = k
    · simp [lookupA, hp] at h
    · simp only [lookupA, hp, if_false] at h
      simp [eraseA, hp, ih h]

theorem upsert_of_lookupA_eq {α : Type} (l : List (String × α)) (k : String) (v : α)
    (h : lookupA l k = some v) : upsert l k v = l := by
  induction l with
  | nil => simp [lookupA] at h
  | cons p rest ih =>
    by_cases hp : p.1 = k
    · simp only [lookupA, hp, if_true, Option.some.injEq] at h
      simp only [upsert, hp, if_true]
      rw [← show p = (k, v) from Prod.ext hp h]
    · simp only [lookupA, hp, if_false] at h
      simp [upsert, hp, ih h]

theorem upsert_upsert {α : Type} (l : List (String × α)) (k : String) (v w : α) :
    upsert (upsert l k v) k w = upsert l k w := by
  induction l with
  | nil => simp [upsert]
  | cons p rest ih =>
    by_cases hp : p.1 = k
    · simp [upsert, hp]
    · simp [upsert, hp, ih]

theorem mem_upsert {α : Type} (l : List (String × α)) (k : String) (v : α)
    (q : String × α) (h : q ∈ upsert l k v) : q ∈ l ∨ q = (k, v) := by
  induction l with
  | nil =>
    simp [upsert] at h
    exact Or.inr h
  | cons p rest ih =>
    by_cases hp : p.1 = k
    · simp only [upsert, hp, if_true, List.mem_cons] at h
      rcases h with h | h
      · exact Or.inr h
      · exact Or.inl (List.mem_cons_of_mem _ h)
    · simp only [upsert, hp, if_false, List.mem_cons] at h
      rcases h with h | h
      · exact Or.inl (by simp [h])
      · rcases ih h with h' | h'
        · exact Or.inl (List.mem_cons_of_mem _ h')
        · exact Or.inr h'

theorem mem_eraseA {α : Type} (l : List (String × α)) (k : String)
    (q : String × α) (h : q ∈ eraseA l k) : q ∈ l := by
  induction l with
  | nil => simp [eraseA] at h
  | cons p rest ih =>
    by_cases hp : p.1 = k
    · simp only [eraseA, hp, if_true] at h
      exact List.mem_cons_of_mem _ h
    · simp only [eraseA, hp, if_false, List.mem_cons] at h
      rcases h with h | h
      · exact by simp [h]
      · exact List.mem_cons_of_mem _ (ih h)

theorem keysNodup_upsert {α : Type} (l : List (String × α)) (k : String) (v : α)
    (h : keysNodup l) : keysNodup (upsert l k v) := by
  induction l with
  | nil => simp [upsert, keysNodup]
  | cons p rest ih =>
    rcases List.nodup_cons.mp h with ⟨h1, h2⟩
    by_cases hp : p.1 = k
    · simp only [upsert, hp, if_true, keysNodup, List.map_cons]
      exact List.nodup_cons.mpr ⟨by simpa [hp] using h1, h2⟩
    · simp only [upsert, hp, if_false, keysNodup, List.map_cons]
      refine List.nodup_cons.mpr ⟨?_, ih h2⟩
      intro hm
      rcases List.mem_map.mp hm with ⟨q, hq, hqe⟩
      rcases mem_upsert rest k v q hq with hm' | hm'
      · exact h1 (hqe ▸ List.mem_map.mpr ⟨q, hm', rfl⟩)
      · exact hp (by rw [← hqe, hm'])

theorem keysNodup_eraseA {α : Type} (l : List (String × α)) (k : String)
    (h : keysNodup l) : keysNodup (eraseA l k) := by
  induction l with
  | nil => simpa [eraseA] using h
  | cons p rest ih =>
    rcases List.nodup_cons.mp h with ⟨h1, h2⟩
    by_cases hp : p.1 = k
    · simpa [eraseA, hp] using h2
    · simp only [eraseA, hp, if_false, keysNodup, List.map_cons]
      refine List.nodup_cons.mpr ⟨?_, ih h2⟩
      intro hm
      rcases List.mem_map.mp hm with ⟨q, hq, hqe⟩
      exact h1 (hqe ▸ List.mem_map.mpr ⟨q, mem_eraseA rest k q hq, rfl⟩)

theorem lookupA_mem {α : Type} (l : List (String × α)) (k : String) (v : α)
    (h : lookupA l k = some v) : (k, v) ∈ l := by
  induction l with
  | nil => simp [lookupA] at h
  | cons p rest ih =>
    by_cases hp : p.1 = k
    · simp only [lookupA, hp, if_true, Option.some.injEq] at h
      have hpv : p = (k, v) := Prod.ext hp h
      rw [hpv]
      exact List.mem_cons_self _ _
    · simp only [lookupA, hp, if_false] at h
      exact List.mem_cons_of_mem _ (ih h)

/-! ## Counting lemmas for the reverse index -/

theorem bindingCountL_upsert (cs : List (String × List binding)) (cid : String)
    (bs : List binding) (d n : String) :
    bindingCountL (upsert cs cid bs) d n + cntB ((lookupA cs cid).getD []) d n =
      bindingCountL cs d n + cntB bs d n := by
  induction cs with
  | nil => simp [upsert, lookupA, bindingCountL, cntB]
  | cons p rest ih =>
    by_cases hp : p.1 = cid
    · simp only [upsert, hp, if_true, lookupA, bindingCountL, List.map_cons,
        List.sum_cons, Option.getD_some]
      omega
    · simp only [upsert, hp, if_false, lookupA, bindingCountL, List.map_cons,
        List.sum_cons, Option.getD_some] at ih ⊢
      omega

theorem bindingCountL_eraseA (cs : List (String × List binding)) (cid : String)
    (d n : String) :
    bindingCountL (eraseA cs cid) d n + cntB ((lookupA cs cid).getD []) d n =
      bindingCountL cs d n := by
  induction cs with
  | nil => simp [eraseA, lookupA, bindingCountL, cntB]
  | cons p rest ih =>
    by_cases hp : p.1 = cid
    · simp only [eraseA, hp, if_true, lookupA, bindingCountL, List.map_cons,
        List.sum_cons, Option.getD_some]
      omega
    · simp only [eraseA, hp, if_false, lookupA, bindingCountL, List.map_cons,
        List.sum_cons, Option.getD_some] at ih ⊢
      omega

theorem cntB_le_bindingCountL (cs : List (String × List binding)) (cid : String)
    (bs : List binding) (d n : String) (h : lookupA cs cid = some bs) :
    cntB bs d n ≤ bindingCountL cs d n := by
  induction cs with
  | nil => simp [lookupA] at h
  | cons p rest ih =>
    by_cases hp : p.1 = cid
    · simp only [lookupA, hp, if_true, Option.some.injEq] at h
      simp only [bindingCountL, List.map_cons, List.sum_cons, h]
      omega
    · simp only [lookupA, hp, if_false] at h
      simp only [bindingCountL, List.map_cons, List.sum_cons]
      have := ih h
      simp only [bindingCountL] at this
      omega

/-! ## Characterizing `addAll` -/

theorem combineEntry_nil (o : Option hostEntry) : combineEntry o [] = o := by
  cases o with
  | none => rfl
  | some e => simp [combineEntry]

theorem combineEntry_combineEntry (o : Option hostEntry) (rs rs' : List route) :
    combineEntry (combineEntry o rs) rs' = combineEntry o (rs ++ rs') := by
  cases o with
  | none =>
    cases rs with
    | nil => simp [combineEntry_nil, combineEntry]
    | cons r rest => simp [combineEntry]
  | some e => simp [combineEntry, List.append_assoc]

theorem combineEntry_singleton_getD (o : Option hostEntry) (r : route) :
    (combineEntry o [r]).getD ⟨[r], 0⟩ =
      (match o with
        | none => (⟨[r], 0⟩ : hostEntry)
        | some e => ⟨e.backends ++ [r], e.counter⟩) := by
  cases o with
  | none => rfl
  | some e => rfl

theorem lookupA_addBackend_self (hosts : List (String × hostEntry)) (d : String)
    (r : route) :
    lookupA (addBackend hosts d r) d =
      some ((combineEntry (lookupA hosts d) [r]).getD ⟨[r], 0⟩) := by
  cases h : lookupA hosts d with
  | none => simp [addBackend, h, lookupA_upsert_self, combineEntry]
  | some e => simp [addBackend, h, lookupA_upsert_self, combineEntry]

theorem lookupA_addBackend_ne (hosts : List (String × hostEntry)) (d d' : String)
    (r : route) (h : d' ≠ d) :
    lookupA (addBackend hosts d r) d' = lookupA hosts d' := by
  cases hh : lookupA hosts d with
  | none => simp [addBackend, hh, lookupA_upsert_ne _ _ _ _ h]
  | some e => simp [addBackend, hh, lookupA_upsert_ne _ _ _ _ h]

theorem lookupA_addAll (name ip : String) (entries : List (String × String)) :
    ∀ (hosts : List (String × hostEntry)) (d : String),
      lookupA (addAll name ip hosts entries) d =
        combineEntry (lookupA hosts d) (contrib name ip entries d) := by
  induction entries with
  | nil =>
    intro hosts d
    simp [addAll, contrib, combineEntry_nil]
  | cons e rest ih =>
    intro hosts d
    obtain ⟨d0, p⟩ := e
    simp only [addAll]
    rw [ih]
    by_cases hd : d0 = d
    · subst hd
      rw [lookupA_addBackend_self]
      have hc : contrib name ip ((d0, p) :: rest) d0 =
          ⟨name, ip, p⟩ :: contrib name ip rest d0 := by
        simp [contrib, List.filterMap_cons]
      rw [hc, combineEntry_singleton_getD]
      cases hh : lookupA hosts d0 with
      | none => simp [combineEntry]
      | some e0 => simp [combineEntry, List.append_assoc]
    · rw [lookupA_addBackend_ne hosts d0 d _ (fun he => hd he.symm)]
      have hc : contrib name ip ((d0, p) :: rest) d = contrib name ip rest d := by
        simp [contrib, List.filterMap_cons, hd]
      rw [hc]

theorem keysNodup_addBackend (hosts : List (String × hostEntry)) (d : String)
    (r : route) (h : keysNodup hosts) : keysNodup (addBackend hosts d r) := by
  cases hh : lookupA hosts d with
  | none => simpa [addBackend, hh] using keysNodup_upsert hosts d _ h
  | some e => simpa [addBackend, hh] using keysNodup_upsert hosts d _ h

theorem keysNodup_addAll (name ip : String) (entries : List (String × String)) :
    ∀ (hosts : List (String × hostEntry)), keysNodup hosts →
      keysNodup (addAll name ip hosts entries) := by
  induction entries with
  | nil => intro hosts h; exact h
  | cons e rest ih =>
    intro hosts h
    obtain ⟨d0, p⟩ := e
    exact ih _ (keysNodup_addBackend hosts d0 _ h)

theorem countP_contrib_eq_ite (name ip : String) (entries : List (String × String))
    (d n : String) :
    (contrib name ip entries d).countP (fun r => r.Name = n) =
      if name = n then entries.countP (fun e => e.1 = d) else 0 := by
  induction entries with
  | nil => simp [contrib]
  | cons e rest ih =>
    obtain ⟨d0, p⟩ := e
    by_cases hd : d0 = d
    · have hstep : contrib name ip ((d0, p) :: rest) d =
          ⟨name, ip, p⟩ :: contrib name ip rest d := by
        simp [contrib, List.filterMap_cons, hd]
      rw [hstep, List.countP_cons, ih, List.countP_cons]
      by_cases hn : name = n
      · simp [hn, hd]
      · simp [hn, hd]
    · have hstep : contrib name ip ((d0, p) :: rest) d =
          contrib name ip rest d := by
        simp [contrib, List.filterMap_cons, hd]
      rw [hstep, ih, List.countP_cons]
      by_cases hn : name = n
      · simp [hn, hd]
      · simp [hn, hd]

theorem cntB_map_eq_ite (name : String) (entries : List (String × String))
    (d n : String) :
    cntB (entries.map (fun e => ⟨e.1, name⟩)) d n =
      if name = n then entries.countP (fun e => e.1 = d) else 0 := by
  induction entries with
  | nil => simp [cntB]
  | cons e rest ih =>
    obtain ⟨d0, p⟩ := e
    simp only [List.map_cons, cntB, List.countP_cons] at ih ⊢
    rw [ih]
    by_cases hd : d0 = d
    · by_cases hn : name = n
      · simp [hd, hn]
      · simp [hd, hn]
    · by_cases hn : name = n
      · simp [hd, hn]
      · simp [hd, hn]

theorem countP_contrib (name ip : String) (entries : List (String × String))
    (d n : String) :
    (contrib name ip entries d).countP (fun r => r.Name = n) =
      cntB (entries.map (fun e => ⟨e.1, name⟩)) d n := by
  rw [countP_contrib_eq_ite, cntB_map_eq_ite]

/-! ## Invariants of reachable routing tables -/

/-! ## removeBackend lemmas -/

theorem removeBackend_of_countP_zero (nm : String) (l : List route)
    (h : l.countP (fun r => r.Name = nm) = 0) : removeBackend nm l = l := by
  induction l with
  | nil => rfl
  | cons r rest ih =>
    rw [List.countP_cons] at h
    have h1 : rest.countP (fun r => r.Name = nm) = 0 := by omega
    have h2 : ¬ r.Name = nm := by
      intro he
      simp [he] at h
    simp [removeBackend, h2, ih h1]

theorem countP_removeBackend_self (nm : String) (l : List route)
    (h : 0 < l.countP (fun r => r.Name = nm)) :
    (removeBackend nm l).countP (fun r => r.Name = nm) + 1 =
      l.countP (fun r => r.Name = nm) := by
  induction l with
  | nil => simp at h
  | cons r rest ih =>
    by_cases hr : r.Name = nm
    · simp [removeBackend, hr, List.countP_cons]
    · rw [List.countP_cons] at h ⊢
      have h' : 0 < rest.countP (fun r => r.Name = nm) := by
        simp [hr] at h
        simpa [hr] using h
      simp only [removeBackend, hr, if_false, List.countP_cons]
      have := ih h'
      omega

theorem countP_removeBackend_ne (nm n : String) (l : List route) (h : n ≠ nm) :
    (removeBackend nm l).countP (fun r => r.Name = n) =
      l.countP (fun r => r.Name = n) := by
  induction l with
  | nil => rfl
  | cons r rest ih =>
    by_cases hr : r.Name = nm
    · have hrn : ¬ r.Name = n := by
        intro he
        exact h (by rw [← he, hr])
      have hne2 : ¬ nm = n := fun he => h he.symm
      simp [removeBackend, hr, List.countP_cons, hrn, hne2]
    · simp only [removeBackend, hr, if_false, List.countP_cons, ih]

theorem removeBackend_eq_nil (nm : String) (l : List route)
    (h : removeBackend nm l = []) :
    l = [] ∨ ∃ r, l = [r] ∧ r.Name = nm := by
  induction l with
  | nil => exact Or.inl rfl
  | cons r rest ih =>
    by_cases hr : r.Name = nm
    · simp only [removeBackend, hr, if_true] at h
      exact Or.inr ⟨r, by rw [h], hr⟩
    · simp [removeBackend, hr] at h

/-! ## removeBinding lemmas -/

theorem backendCount_none (t : routeTable) (d n : String)
    (h : lookupA t.hosts d = none) : backendCount t d n = 0 := by
  simp [backendCount, h]

theorem backendCount_some (t : routeTable) (d n : String) (e : hostEntry)
    (h : lookupA t.hosts d = some e) :
    backendCount t d n = e.backends.countP (fun r => r.Name = n) := by
  simp [backendCount, h]

theorem removeBinding_eq_skip (t : routeTable) (b : binding)
    (h : lookupA t.hosts b.Domain = none) : removeBinding t b = t := by
  simp [removeBinding, h]

theorem removeBinding_eq_erase (t : routeTable) (b : binding) (e : hostEntry)
    (h : lookupA t.hosts b.Domain = some e)
    (hl : removeBackend b.Name e.backends = []) :
    removeBinding t b = { t with hosts := eraseA t.hosts b.Domain } := by
  simp [removeBinding, h, hl]

theorem removeBinding_eq_upsert (t : routeTable) (b : binding) (e : hostEntry)
    (h : lookupA t.hosts b.Domain = some e)
    (hl : removeBackend b.Name e.backends ≠ []) :
    removeBinding t b =
      { t with hosts := upsert t.hosts b.Domain ⟨removeBackend b.Name e.backends, e.counter⟩ } := by
  simp [removeBinding, h, List.length_eq_zero, hl]

theorem removeBinding_containers (t : routeTable) (b : binding) :
    (removeBinding t b).containers = t.containers := by
  cases h : lookupA t.hosts b.Domain with
  | none => rw [removeBinding_eq_skip t b h]
  | some e =>
    by_cases hl : removeBackend b.Name e.backends = []
    · rw [removeBinding_eq_erase t b e h hl]
    · rw [removeBinding_eq_upsert t b e h hl]

theorem removeBinding_keysNodup (t : routeTable) (b : binding)
    (h : keysNodup t.hosts) : keysNodup (removeBinding t b).hosts := by
  cases hb : lookupA t.hosts b.Domain with
  | none => rw [removeBinding_eq_skip t b hb]; exact h
  | some e =>
    by_cases hl : removeBackend b.Name e.backends = []
    · rw [removeBinding_eq_erase t b e hb hl]
      exact keysNodup_eraseA t.hosts b.Domain h
    · rw [removeBinding_eq_upsert t b e hb hl]
      exact keysNodup_upsert t.hosts b.Domain _ h

theorem removeBinding_lookup_ne (t : routeTable) (b : binding) (d : String)
    (h : d ≠ b.Domain) :
    lookupA (removeBinding t b).hosts d = lookupA t.hosts d := by
  cases hb : lookupA t.hosts b.Domain with
  | none => rw [removeBinding_eq_skip t b hb]
  | some e =>
    by_cases hl : removeBackend b.Name e.backends = []
    · rw [removeBinding_eq_erase t b e hb hl]
      exact lookupA_eraseA_ne t.hosts b.Domain d h
    · rw [removeBinding_eq_upsert t b e hb hl]
      exact lookupA_upsert_ne t.hosts b.Domain d _ h

theorem removeBinding_noEmpty (t : routeTable) (b : binding)
    (hnd : keysNodup t.hosts) (hne : noEmptyEntry t) :
    noEmptyEntry (removeBinding t b) := by
  intro d e' hd
  by_cases hdb : d = b.Domain
  · subst hdb
    cases hb : lookupA t.hosts b.Domain with
    | none =>
      rw [removeBinding_eq_skip t b hb] at hd
      exact hne b.Domain e' hd
    | some e =>
      by_cases hl : removeBackend b.Name e.backends = []
      · rw [removeBinding_eq_erase t b e hb hl] at hd
        have h0 : lookupA (eraseA t.hosts b.Domain) b.Domain = none :=
          lookupA_eraseA_self t.hosts b.Domain hnd
        simp only [h0] at hd
        cases hd
      · rw [removeBinding_eq_upsert t b e hb hl] at hd
        simp only [lookupA_upsert_self] at hd
        cases hd
        exact hl
  · rw [removeBinding_lookup_ne t b d hdb] at hd
    exact hne d e' hd

theorem removeBinding_count (t : routeTable) (b : binding)
    (hnd : keysNodup t.hosts) (hne : noEmptyEntry t) (d n : String) :
    backendCount t d n ≤ backendCount (removeBinding t b) d n +
      (if b.Domain = d ∧ b.Name = n then 1 else 0) := by
  by_cases hdb : d = b.Domain
  · subst hdb
    cases hb : lookupA t.hosts b.Domain with
    | none =>
      rw [removeBinding_eq_skip t b hb]
      exact Nat.le_add_right _ _
    | some e =>
      have hnil : e.backends ≠ [] := hne _ e hb
      rw [backendCount_some t _ n e hb]
      by_cases hl : removeBackend b.Name e.backends = []
      · rw [removeBinding_eq_erase t b e hb hl]
        have h0 :
            backendCount { t with hosts := eraseA t.hosts b.Domain } b.Domain n = 0 :=
          backendCount_none _ _ _ (lookupA_eraseA_self t.hosts b.Domain hnd)
        rw [h0]
        rcases removeBackend_eq_nil b.Name e.backends hl with h0' | ⟨r, hr, hrn⟩
        · exact absurd h0' hnil
        · rw [hr]
          by_cases hn : b.Name = n
          · simp [List.countP_cons, hrn, hn]
          · have hrn' : ¬ r.Name = n := by
              intro he
              exact hn (by rw [← hrn, he])
            simp [List.countP_cons, hrn', hn]
      · rw [removeBinding_eq_upsert t b e hb hl]
        have hup :
            backendCount
              { t with hosts := upsert t.hosts b.Domain ⟨removeBackend b.Name e.backends, e.counter⟩ }
              b.Domain n =
              (removeBackend b.Name e.backends).countP (fun r => r.Name = n) :=
          backendCount_some _ _ _ _ (lookupA_upsert_self t.hosts b.Domain _)
        rw [hup]
        by_cases hn : b.Name = n
        · subst hn
          have hite : (if b.Domain = b.Domain ∧ b.Name = b.Name then 1 else 0) = 1 := by
            simp
          rw [hite]
          by_cases hz : e.backends.countP (fun r => r.Name = b.Name) = 0
          · rw [removeBackend_of_countP_zero b.Name e.backends hz, hz]
            omega
          · have := countP_removeBackend_self b.Name e.backends (Nat.pos_of_ne_zero hz)
            omega
        · rw [countP_removeBackend_ne b.Name n e.backends (fun he => hn he.symm)]
          exact Nat.le_add_right _ _
  · rw [show backendCount (removeBinding t b) d n = backendCount t d n from by
      simp [backendCount, removeBinding_lookup_ne t b d hdb]]
    exact Nat.le_add_right _ _

/-- Effect of the `removeRoutes` loop over a binding list: the reverse
index is untouched, key uniqueness and nonemptiness of entries are kept,
and a per-`(domain, name)` budget `E` that the remaining bindings respect
keeps holding. -/
theorem removeRoutes_fold (E : String → String → Nat) :
    ∀ (bs : List binding) (t : routeTable),
      keysNodup t.hosts → noEmptyEntry t →
      (∀ d n, E d n + cntB bs d n ≤ backendCount t d n) →
      keysNodup (bs.foldl removeBinding t).hosts ∧
      (bs.foldl removeBinding t).containers = t.containers ∧
      noEmptyEntry (bs.foldl removeBinding t) ∧
      (∀ d n, E d n ≤ backendCount (bs.foldl removeBinding t) d n) := by
  intro bs
  induction bs with
  | nil =>
    intro t h1 h2 h3
    refine ⟨h1, rfl, h2, fun d n => ?_⟩
    have := h3 d n
    simpa [cntB] using this
  | cons b rest ih =>
    intro t h1 h2 h3
    have hstep : ∀ d n, E d n + cntB rest d n ≤ backendCount (removeBinding t b) d n := by
      intro d n
      have hc : cntB (b :: rest) d n =
          cntB rest d n + (if b.Domain = d ∧ b.Name = n then 1 else 0) := by
        simp [cntB, List.countP_cons]
      have h3' := h3 d n
      rw [hc] at h3'
      have hcnt := removeBinding_count t b h1 h2 d n
      omega
    have h1' := removeBinding_keysNodup t b h1
    have h2' := removeBinding_noEmpty t b h1 h2
    have := ih (removeBinding t b) h1' h2' hstep
    refine ⟨this.1, ?_, this.2.2.1, this.2.2.2⟩
    show (List.foldl removeBinding (removeBinding t b) rest).containers = t.containers
    rw [this.2.1, removeBinding_containers]

/-! ## Invariant preservation -/

theorem backendCount_addAll (name ip : String) (entries : List (String × String))
    (hosts : List (String × hostEntry)) (cs : List (String × List binding))
    (d n : String) :
    backendCount ⟨addAll name ip hosts entries, cs⟩ d n =
      backendCount ⟨hosts, cs⟩ d n +
        (contrib name ip entries d).countP (fun r => r.Name = n) := by
  have h := lookupA_addAll name ip entries hosts d
  cases hh : lookupA hosts d with
  | none =>
    rw [hh] at h
    cases hc : contrib name ip entries d with
    | nil =>
      rw [hc] at h
      simp [backendCount, h, hh, hc, combineEntry]
    | cons r rs =>
      rw [hc] at h
      simp [backendCount, h, hh, combineEntry, List.countP_cons]
  | some e =>
    rw [hh] at h
    simp [backendCount, h, hh, combineEntry, List.countP_append]

theorem addRoutesOk_eq_of_no_config (net cid : String) (c : dockerInspect)
    (t : routeTable) (hcfg : sub2portConfig c.Env = "") :
    addRoutesOk net cid c t = t := by
  simp [addRoutesOk, hcfg]

theorem addRoutesOk_eq_of_no_network (net cid : String) (c : dockerInspect)
    (t : routeTable) (hcfg : sub2portConfig c.Env ≠ "")
    (hip : lookupA c.Networks net = none) :
    addRoutesOk net cid c t = t := by
  simp [addRoutesOk, hcfg, hip]

theorem addRoutesOk_eq_of_no_address (net cid : String) (c : dockerInspect)
    (t : routeTable) (hcfg : sub2portConfig c.Env ≠ "")
    (hip : lookupA c.Networks net = some "") :
    addRoutesOk net cid c t = t := by
  simp [addRoutesOk, hcfg, hip]

theorem addRoutesOk_eq_main (net cid : String) (c : dockerInspect)
    (t : routeTable) (ip : String) (hcfg : sub2portConfig c.Env ≠ "")
    (hip : lookupA c.Networks net = some ip) (hip' : ip ≠ "") :
    addRoutesOk net cid c t =
      { hosts :=
          addAll (trimSlash c.Name) ip t.hosts
            (parseEntries (sub2portConfig c.Env) (defaultPortOf c.ExposedPorts)),
        containers :=
          upsert t.containers cid
            ((parseEntries (sub2portConfig c.Env) (defaultPortOf c.ExposedPorts)).map
              (fun e => ⟨e.1, trimSlash c.Name⟩)) } := by
  simp [addRoutesOk, hcfg, hip, hip']

theorem Inv_addRoutesOk (net cid : String) (c : dockerInspect) (t : routeTable)
    (h : Inv t) : Inv (addRoutesOk net cid c t) := by
  by_cases hcfg : sub2portConfig c.Env = ""
  · rw [addRoutesOk_eq_of_no_config net cid c t hcfg]; exact h
  cases hip : lookupA c.Networks net with
  | none => rw [addRoutesOk_eq_of_no_network net cid c t hcfg hip]; exact h
  | some ip =>
    by_cases hip' : ip = ""
    · subst hip'
      rw [addRoutesOk_eq_of_no_address net cid c t hcfg hip]; exact h
    · rw [addRoutesOk_eq_main net cid c t ip hcfg hip hip']
      obtain ⟨hN1, hN2, hNE, hC⟩ := h
      refine ⟨keysNodup_addAll _ _ _ _ hN1, keysNodup_upsert _ _ _ hN2, ?_, ?_⟩
      · intro d e' hd
        have h := lookupA_addAll (trimSlash c.Name) ip
          (parseEntries (sub2portConfig c.Env) (defaultPortOf c.ExposedPorts)) t.hosts d
        rw [h] at hd
        cases hh : lookupA t.hosts d with
        | none =>
          rw [hh] at hd
          cases hc : contrib (trimSlash c.Name) ip
              (parseEntries (sub2portConfig c.Env) (defaultPortOf c.ExposedPorts)) d with
          | nil => rw [hc] at hd; cases hd
          | cons r rs =>
            rw [hc] at hd
            cases hd
            simp [combineEntry]
        | some e0 =>
          rw [hh] at hd
          simp only [combineEntry, Option.some.injEq] at hd
          rw [← hd]
          have := hNE d e0 hh
          simp [this]
      · intro d n
        have hb := backendCount_addAll (trimSlash c.Name) ip
          (parseEntries (sub2portConfig c.Env) (defaultPortOf c.ExposedPorts))
          t.hosts
          (upsert t.containers cid
            ((parseEntries (sub2portConfig c.Env) (defaultPortOf c.ExposedPorts)).map
              (fun e => ⟨e.1, trimSlash c.Name⟩))) d n
        rw [show (backendCount
              ⟨t.hosts,
                upsert t.containers cid
                  ((parseEntries (sub2portConfig c.Env) (defaultPortOf c.ExposedPorts)).map
                    (fun e => ⟨e.1, trimSlash c.Name⟩))⟩ d n) = backendCount t d n
          from by simp [backendCount]] at hb
        have hbc := bindingCountL_upsert t.containers cid
          ((parseEntries (sub2portConfig c.Env) (defaultPortOf c.ExposedPorts)).map
            (fun e => ⟨e.1, trimSlash c.Name⟩)) d n
        have hcc := countP_contrib (trimSlash c.Name) ip
          (parseEntries (sub2portConfig c.Env) (defaultPortOf c.ExposedPorts)) d n
        have hC' := hC d n
        simp only [bindingCount, backendCount] at hC' hbc ⊢
        simp only [backendCount] at hb
        omega

theorem Inv_removeRoutes (cid : String) (t : routeTable) (h : Inv t) :
    Inv (removeRoutes cid t) := by
  obtain ⟨hN1, hN2, hNE, hC⟩ := h
  have hinit : ∀ d n,
      bindingCountL (eraseA t.containers cid) d n +
        cntB ((lookupA t.containers cid).getD []) d n ≤ backendCount t d n := by
    intro d n
    have := bindingCountL_eraseA t.containers cid d n
    have hC' := hC d n
    simp only [bindingCount] at hC'
    omega
  have hfold := removeRoutes_fold
    (fun d n => bindingCountL (eraseA t.containers cid) d n)
    ((lookupA t.containers cid).getD []) t hN1 hNE hinit
  obtain ⟨hf1, hf2, hf3, hf4⟩ := hfold
  have hrr : removeRoutes cid t =
      ⟨(((lookupA t.containers cid).getD []).foldl removeBinding t).hosts,
        eraseA (((lookupA t.containers cid).getD []).foldl removeBinding t).containers
          cid⟩ := rfl
  rw [hrr]
  refine ⟨hf1, ?_, ?_, ?_⟩
  · rw [hf2]
    exact keysNodup_eraseA t.containers cid hN2
  · intro d e' hd
    exact hf3 d e' hd
  · intro d n
    have hbc : bindingCount
        ⟨(((lookupA t.containers cid).getD []).foldl removeBinding t).hosts,
          eraseA (((lookupA t.containers cid).getD []).foldl removeBinding t).containers
            cid⟩ d n = bindingCountL (eraseA t.containers cid) d n := by
      simp only [bindingCount, hf2]
    rw [hbc]
    have := hf4 d n
    simpa [backendCount] using this

theorem Inv_empty : Inv routeTable.empty := by
  refine ⟨List.nodup_nil, List.nodup_nil, ?_, ?_⟩
  · intro d e hd
    cases hd
  · intro d n
    simp [bindingCount, bindingCountL, backendCount, lookupA, routeTable.empty]

theorem Inv_execOp (net : String) (t t' : routeTable) (o : tableOp)
    (h : Inv t) (he : execOp net t o = some t') : Inv t' := by
  cases o with
  | add cid fetch =>
    cases fetch with
    | none =>
      simp only [execOp, addRoutes] at he
      by_cases hlen : cid.utf8ByteSize < 12
      · simp [hlen] at he
      · simp only [hlen, if_false, Option.some.injEq] at he
        rw [← he]
        exact h
    | some c =>
      simp only [execOp, addRoutes, Option.some.injEq] at he
      rw [← he]
      exact Inv_addRoutesOk net cid c t h
  | remove cid =>
    simp only [execOp, Option.some.injEq] at he
    rw [← he]
    exact Inv_removeRoutes cid t h

theorem Inv_runOps (net : String) :
    ∀ (ops : List tableOp) (t t' : routeTable),
      Inv t → runOps net t ops = some t' → Inv t' := by
  intro ops
  induction ops with
  | nil =>
    intro t t' h he
    simp only [runOps, Option.some.injEq] at he
    rw [← he]
    exact h
  | cons o os ih =>
    intro t t' h he
    simp only [runOps] at he
    cases hx : execOp net t o with
    | none => rw [hx] at he; cases he
    | some t1 =>
      rw [hx] at he
      exact ih t1 t' (Inv_execOp net t t1 o h hx) he

/-! ## Claim C4 -/

/-- C4: after every finite sequence of add-routes and remove-routes
operations starting from the empty table, every host entry present in the
hosts map has a non-empty backends sequence (an entry is deleted in the
same remove-routes operation that removes its last backend, so no empty
entry is ever observable after an operation). -/
theorem claim_C4 (net : String) (ops : List tableOp) (t : routeTable)
    (d : String) (e : hostEntry)
    (hrun : runOps net routeTable.empty ops = some t)
    (hd : lookupA t.hosts d = some e) : e.backends ≠ [] :=
  (Inv_runOps net ops routeTable.empty t Inv_empty hrun).2.2.1 d e hd

/-! ## Claim C2 -/

/-- C2, counterexample to `exactly one`: restarting a container whose
`SUB2PORT` port changed appends a second backend with the same container
name under the same hostname while the binding list is replaced, so the
single remaining binding `(a.test, n)` corresponds to two backends, not
exactly one. -/
theorem claim_C2_cex :
    runOps "net" routeTable.empty
        [tableOp.add "c00000000001"
          (some ⟨"/n", ["SUB2PORT=a.test:1"], [], [], [("net", "10.0.0.2")]⟩),
         tableOp.add "c00000000001"
          (some ⟨"/n", ["SUB2PORT=a.test:2"], [], [], [("net", "10.0.0.2")]⟩)] =
      some ⟨[("a.test", ⟨[⟨"n", "10.0.0.2", "1"⟩, ⟨"n", "10.0.0.2", "2"⟩], 0⟩)],
        [("c00000000001", [⟨"a.test", "n"⟩])]⟩ ∧
    backendCount
      ⟨[("a.test", ⟨[⟨"n", "10.0.0.2", "1"⟩, ⟨"n", "10.0.0.2", "2"⟩], 0⟩)],
        [("c00000000001", [⟨"a.test", "n"⟩])]⟩ "a.test" "n" = 2 := by
  constructor
  · decide
  · decide

/-- C2 (amended): after every finite sequence of add-routes and
remove-routes operations starting from the empty table, every binding
stored in the reverse index corresponds to at least one backend with the
binding's container name currently present in the host entry for the
binding's hostname (the original `exactly one` fails: a restart with a
changed configuration can leave several matching backends). -/
theorem claim_C2 (net : String) (ops : List tableOp) (t : routeTable)
    (cid : String) (bs : List binding) (b : binding)
    (hrun : runOps net routeTable.empty ops = some t)
    (hlook : lookupA t.containers cid = some bs) (hb : b ∈ bs) :
    1 ≤ backendCount t b.Domain b.Name := by
  have hInv := Inv_runOps net ops routeTable.empty t Inv_empty hrun
  have h1 : cntB bs b.Domain b.Name ≤ bindingCountL t.containers b.Domain b.Name :=
    cntB_le_bindingCountL t.containers cid bs b.Domain b.Name hlook
  have h2 : 0 < cntB bs b.Domain b.Name := by
    simp only [cntB]
    exact List.countP_pos_iff.mpr ⟨b, hb, by simp⟩
  have h3 := hInv.2.2.2 b.Domain b.Name
  simp only [bindingCount] at h3
  omega

/-! ## Claim C3 -/

/-- C3, counterexample: running add-routes a second time for the same
container with an unchanged configuration (a restart) appends a second
identical backend under the hostname — duplicates are produced. -/
theorem claim_C3_cex :
    runOps "net" routeTable.empty
        [tableOp.add "c00000000001"
          (some ⟨"/n", ["SUB2PORT=app.test"], [], [], [("net", "10.0.0.2")]⟩),
         tableOp.add "c00000000001"
          (some ⟨"/n", ["SUB2PORT=app.test"], [], [], [("net", "10.0.0.2")]⟩)] =
      some ⟨[("app.test",
          ⟨[⟨"n", "10.0.0.2", "80"⟩, ⟨"n", "10.0.0.2", "80"⟩], 0⟩)],
        [("c00000000001", [⟨"app.test", "n"⟩])]⟩ := by
  decide

/-- C3 (amended): running add-routes a second time for an already-tracked
container whose configuration is unchanged appends the same batch of
backends again (the backends under each hostname are duplicated), while
the container's binding list is replaced, not extended. -/
theorem claim_C3 (net cid : String) (c : dockerInspect) (t : routeTable)
    (ip : String) (hcfg : sub2portConfig c.Env ≠ "")
    (hip : lookupA c.Networks net = some ip) (hip' : ip ≠ "") :
    (∀ d, lookupA (addRoutesOk net cid c (addRoutesOk net cid c t)).hosts d =
      combineEntry (lookupA t.hosts d)
        (contrib (trimSlash c.Name) ip
            (parseEntries (sub2portConfig c.Env) (defaultPortOf c.ExposedPorts)) d ++
          contrib (trimSlash c.Name) ip
            (parseEntries (sub2portConfig c.Env) (defaultPortOf c.ExposedPorts)) d)) ∧
    lookupA (addRoutesOk net cid c (addRoutesOk net cid c t)).containers cid =
      some ((parseEntries (sub2portConfig c.Env) (defaultPortOf c.ExposedPorts)).map
        (fun e => ⟨e.1, trimSlash c.Name⟩)) := by
  rw [addRoutesOk_eq_main net cid c (addRoutesOk net cid c t) ip hcfg hip hip',
    addRoutesOk_eq_main net cid c t ip hcfg hip hip']
  constructor
  · intro d
    show lookupA (addAll (trimSlash c.Name) ip
        (addAll (trimSlash c.Name) ip t.hosts
          (parseEntries (sub2portConfig c.Env) (defaultPortOf c.ExposedPorts)))
        (parseEntries (sub2portConfig c.Env) (defaultPortOf c.ExposedPorts))) d = _
    rw [lookupA_addAll, lookupA_addAll, combineEntry_combineEntry]
  · show lookupA (upsert (upsert t.containers cid _) cid _) cid = _
    rw [upsert_upsert, lookupA_upsert_self]

/-! ## Claim C7 -/

theorem specParsedBackends_eq (config dp name ip d : String) :
    specParsedBackends config dp name ip d =
      contrib name ip (parseEntries config dp) d := by
  unfold specParsedBackends contrib parseEntries
  rw [List.filterMap_map]
  congr 1
  funext e
  cases h : splitHostPort e with
  | none => simp [Function.comp, h]
  | some pr =>
    obtain ⟨hh, pp⟩ := pr
    simp [Function.comp, h]

/-- C7: when a container with a non-empty routing configuration and an
address on the resolved network is added, the host entry of every
hostname `d` afterwards holds its previous backends followed by exactly
one backend per configuration entry naming `d`: the value is split on
commas, empty trimmed entries are skipped, an entry parsing as
`hostname:port` contributes that port, and a bare-hostname entry
contributes the container's first exposed port, or `"80"` when none is
exposed (`defaultPortOf`). -/
theorem claim_C7 (net cid : String) (c : dockerInspect) (t : routeTable)
    (ip : String) (hcfg : sub2portConfig c.Env ≠ "")
    (hip : lookupA c.Networks net = some ip) (hip' : ip ≠ "") (d : String) :
    lookupA (addRoutesOk net cid c t).hosts d =
      combineEntry (lookupA t.hosts d)
        (specParsedBackends (sub2portConfig c.Env) (defaultPortOf c.ExposedPorts)
          (trimSlash c.Name) ip d) := by
  rw [addRoutesOk_eq_main net cid c t ip hcfg hip hip', specParsedBackends_eq]
  exact lookupA_addAll _ _ _ _ _

/-! ## Claims C1 and C6 (the dispatcher) -/

theorem proxy_hit (t : routeTable) (r : String) (e : hostEntry)
    (ht : lookupA t.hosts (stripPort r) = some e) (hnil : e.backends ≠ []) :
    proxy t r = some
      ({ t with hosts := upsert t.hosts (stripPort r) ⟨e.backends, (e.counter + 1) % 2 ^ 64⟩ },
        .forward (e.backends.getD (e.counter % e.backends.length) ⟨"", "", ""⟩)) := by
  have hl : ¬ e.backends.length = 0 := by
    simpa [List.length_eq_zero] using hnil
  simp [proxy, ht, hl]

theorem proxyN_state (t : routeTable) (r : String) (e : hostEntry)
    (ht : lookupA t.hosts (stripPort r) = some e)
    (hc : e.counter = 0) (hnil : e.backends ≠ [])
    (hlen : e.backends.length < 2 ^ 64) :
    ∀ i, i ≤ e.backends.length →
      proxyN t r i =
        some { t with hosts := upsert t.hosts (stripPort r) ⟨e.backends, i⟩ } := by
  intro i
  induction i with
  | zero =>
    intro _
    have he : (⟨e.backends, 0⟩ : hostEntry) = e := by
      rw [← hc]
    rw [show proxyN t r 0 = some t from rfl, he,
      upsert_of_lookupA_eq t.hosts (stripPort r) e ht]
  | succ i ih =>
    intro hsi
    have hi : i ≤ e.backends.length := Nat.le_of_succ_le hsi
    have hstep := ih hi
    have hlook : lookupA (upsert t.hosts (stripPort r) ⟨e.backends, i⟩)
        (stripPort r) = some ⟨e.backends, i⟩ :=
      lookupA_upsert_self t.hosts (stripPort r) _
    have hp := proxy_hit
      { t with hosts := upsert t.hosts (stripPort r) ⟨e.backends, i⟩ } r
      ⟨e.backends, i⟩ hlook hnil
    have hmod : (i + 1) % 2 ^ 64 = i + 1 :=
      Nat.mod_eq_of_lt (lt_of_le_of_lt hsi hlen)
    show (match proxyN t r i with
      | none => none
      | some t' => (proxy t' r).map Prod.fst) =
        some { t with hosts := upsert t.hosts (stripPort r) ⟨e.backends, i + 1⟩ }
    rw [hstep]
    simp only [hp, Option.map_some']
    rw [upsert_upsert, hmod]

/-- C1: for a request whose host resolves to an entry with `N ≥ 1`
backends and counter `0` (and `N` below the `uint64` bound, as any Go
slice length is), the counter after `i` selections is exactly `i` (each
successful selection advances it by one), the `i`-th selection
(`0 ≤ i < N`) forwards to the `i`-th backend in insertion order — so `N`
consecutive selections return each backend exactly once — and the
`N+1`-st selection wraps around to the first backend again. -/
theorem claim_C1 (t : routeTable) (r : String) (e : hostEntry)
    (ht : lookupA t.hosts (stripPort r) = some e)
    (hc : e.counter = 0) (hnil : e.backends ≠ [])
    (hlen : e.backends.length < 2 ^ 64) :
    (∀ i, i ≤ e.backends.length →
      (proxyN t r i).bind (fun s => lookupA s.hosts (stripPort r)) =
        some ⟨e.backends, i⟩) ∧
    (∀ i, i < e.backends.length →
      (proxyN t r i).bind (fun s => (proxy s r).map Prod.snd) =
        (e.backends[i]?).map Response.forward) ∧
    ((proxyN t r e.backends.length).bind (fun s => (proxy s r).map Prod.snd) =
      (e.backends[0]?).map Response.forward) := by
  refine ⟨?_, ?_, ?_⟩
  · intro i hi
    rw [proxyN_state t r e ht hc hnil hlen i hi]
    simp only [Option.some_bind]
    exact lookupA_upsert_self t.hosts (stripPort r) _
  · intro i hi
    rw [proxyN_state t r e ht hc hnil hlen i (Nat.le_of_lt hi)]
    have hlook : lookupA (upsert t.hosts (stripPort r) ⟨e.backends, i⟩)
        (stripPort r) = some ⟨e.backends, i⟩ :=
      lookupA_upsert_self t.hosts (stripPort r) _
    have hp := proxy_hit
      { t with hosts := upsert t.hosts (stripPort r) ⟨e.backends, i⟩ } r
      ⟨e.backends, i⟩ hlook hnil
    simp only [Option.some_bind, hp, Option.map_some']
    have hmod : i % e.backends.length = i := Nat.mod_eq_of_lt hi
    rw [show ((⟨e.backends, i⟩ : hostEntry)).counter % (⟨e.backends, i⟩ : hostEntry).backends.length
        = i % e.backends.length from rfl, hmod]
    rw [List.getD_eq_getElem e.backends ⟨"", "", ""⟩ hi,
      List.getElem?_eq_getElem hi]
    rfl
  · rw [proxyN_state t r e ht hc hnil hlen e.backends.length (Nat.le_refl _)]
    have hlook : lookupA (upsert t.hosts (stripPort r) ⟨e.backends, e.backends.length⟩)
        (stripPort r) = some ⟨e.backends, e.backends.length⟩ :=
      lookupA_upsert_self t.hosts (stripPort r) _
    have hp := proxy_hit
      { t with hosts := upsert t.hosts (stripPort r) ⟨e.backends, e.backends.length⟩ } r
      ⟨e.backends, e.backends.length⟩ hlook hnil
    simp only [Option.some_bind, hp, Option.map_some']
    have hpos : 0 < e.backends.length := List.length_pos.mpr hnil
    rw [show ((⟨e.backends, e.backends.length⟩ : hostEntry)).counter %
        (⟨e.backends, e.backends.length⟩ : hostEntry).backends.length
        = e.backends.length % e.backends.length from rfl, Nat.mod_self]
    rw [List.getD_eq_getElem e.backends ⟨"", "", ""⟩ hpos,
      List.getElem?_eq_getElem hpos]
    rfl

/-- C6: a request whose host (port suffix stripped) has no entry in the
routing table gets the bad-gateway response with body
`no backend for <host>`, no forwarding attempt is made, no panic occurs
(the result is `some`), and the routing table is returned unchanged. -/
theorem claim_C6 (t : routeTable) (r : String)
    (h : lookupA t.hosts (stripPort r) = none) :
    proxy t r = some (t, .badGateway ("no backend for " ++ stripPort r)) := by
  simp [proxy, h]

/-! ## Claim C5 -/

theorem fold_removeBinding_containers (bs : List binding) :
    ∀ t : routeTable, (bs.foldl removeBinding t).containers = t.containers := by
  induction bs with
  | nil => intro t; rfl
  | cons b rest ih =>
    intro t
    show (List.foldl removeBinding (removeBinding t b) rest).containers = t.containers
    rw [ih, removeBinding_containers]

theorem fold_removeBinding_lookup_ne (bs : List binding) :
    ∀ (t : routeTable) (d : String), (∀ b ∈ bs, b.Domain ≠ d) →
      lookupA (bs.foldl removeBinding t).hosts d = lookupA t.hosts d := by
  induction bs with
  | nil => intro t d _; rfl
  | cons b rest ih =>
    intro t d h
    show lookupA (List.foldl removeBinding (removeBinding t b) rest).hosts d =
      lookupA t.hosts d
    rw [ih (removeBinding t b) d (fun x hx => h x (List.mem_cons_of_mem _ hx)),
      removeBinding_lookup_ne t b d
        (fun he => h b (List.mem_cons_self _ _) he.symm)]

theorem removeBackend_all (nm : String) (r0 : route) (rs : List route)
    (h : r0.Name = nm) : removeBackend nm (r0 :: rs) = rs := by
  simp [removeBackend, h]

theorem fold_removeBinding_sole (n : String) (bs : List binding) :
    ∀ (t : routeTable) (d : String), keysNodup t.hosts →
      (∀ b ∈ bs, b.Domain = d → b.Name = n) →
      (lookupA t.hosts d = none ∨
        ∃ e, lookupA t.hosts d = some e ∧ (∀ r ∈ e.backends, r.Name = n) ∧
          e.backends ≠ [] ∧
          e.backends.length ≤ bs.countP (fun b => b.Domain = d)) →
      lookupA (bs.foldl removeBinding t).hosts d = none := by
  induction bs with
  | nil =>
    intro t d _ _ hdisj
    rcases hdisj with h0 | ⟨e, _, _, hnil, hle⟩
    · exact h0
    · exfalso
      have : e.backends.length = 0 := by
        simpa using hle
      exact hnil (List.length_eq_zero.mp this)
  | cons b rest ih =>
    intro t d hnd hall hdisj
    have hnd' : keysNodup (removeBinding t b).hosts := removeBinding_keysNodup t b hnd
    have hall' : ∀ x ∈ rest, x.Domain = d → x.Name = n :=
      fun x hx => hall x (List.mem_cons_of_mem _ hx)
    show lookupA (List.foldl removeBinding (removeBinding t b) rest).hosts d = none
    by_cases hbd : b.Domain = d
    · rcases hdisj with h0 | ⟨e, he, hnames, hnil, hle⟩
      · refine ih (removeBinding t b) d hnd' hall' (Or.inl ?_)
        have : lookupA t.hosts b.Domain = none := by rw [hbd]; exact h0
        rw [removeBinding_eq_skip t b this]
        exact h0
      · have heb : lookupA t.hosts b.Domain = some e := by rw [hbd]; exact he
        obtain ⟨r0, rs, hcons⟩ := List.exists_cons_of_ne_nil hnil
        have hr0 : r0.Name = n := hnames r0 (by rw [hcons]; exact List.mem_cons_self _ _)
        have hbn : b.Name = n := hall b (List.mem_cons_self _ _) hbd
        have hrb : removeBackend b.Name e.backends = rs := by
          rw [hcons]
          exact removeBackend_all b.Name r0 rs (by rw [hr0, hbn])
        have hcnt : e.backends.length ≤
            rest.countP (fun x => x.Domain = d) + 1 := by
          have : (b :: rest).countP (fun x => x.Domain = d) =
              rest.countP (fun x => x.Domain = d) + 1 := by
            simp [List.countP_cons, hbd]
          rw [this] at hle
          exact hle
        cases hrs : rs with
        | nil =>
          refine ih (removeBinding t b) d hnd' hall' (Or.inl ?_)
          have hrb' : removeBackend b.Name e.backends = [] := by rw [hrb, hrs]
          rw [removeBinding_eq_erase t b e heb hrb']
          show lookupA (eraseA t.hosts b.Domain) d = none
          rw [← hbd]
          exact lookupA_eraseA_self t.hosts b.Domain hnd
        | cons r1 rs1 =>
          refine ih (removeBinding t b) d hnd' hall' (Or.inr ?_)
          have hrb' : removeBackend b.Name e.backends ≠ [] := by
            rw [hrb, hrs]
            exact List.cons_ne_nil _ _
          refine ⟨⟨removeBackend b.Name e.backends, e.counter⟩, ?_, ?_, ?_, ?_⟩
          · rw [removeBinding_eq_upsert t b e heb hrb']
            show lookupA (upsert t.hosts b.Domain ⟨removeBackend b.Name e.backends, e.counter⟩) d = some _
            rw [← hbd]
            exact lookupA_upsert_self t.hosts b.Domain _
          · intro x hx
            refine hnames x ?_
            rw [hrb] at hx
            rw [hcons]
            exact List.mem_cons_of_mem _ hx
          · show removeBackend b.Name e.backends ≠ []
            exact hrb'
          · show (removeBackend b.Name e.backends).length ≤ _
            rw [hrb]
            have hlen : e.backends.length = rs.length + 1 := by
              rw [hcons]
              rfl
            omega
    · rcases hdisj with h0 | ⟨e, he, hnames, hnil, hle⟩
      · refine ih (removeBinding t b) d hnd' hall' (Or.inl ?_)
        rw [removeBinding_lookup_ne t b d (fun x => hbd x.symm)]
        exact h0
      · refine ih (removeBinding t b) d hnd' hall' (Or.inr ?_)
        refine ⟨e, ?_, hnames, hnil, ?_⟩
        · rw [removeBinding_lookup_ne t b d (fun x => hbd x.symm)]
          exact he
        · have : (b :: rest).countP (fun x => x.Domain = d) =
              rest.countP (fun x => x.Domain = d) := by
            simp [List.countP_cons, hbd]
          rw [this] at hle
          exact hle

/-- C5, counterexample: (run A) a container that was tracked but never
routed (`SUB2PORT=,` parses to no entries, so its binding list is empty)
still has its reverse-index entry deleted by remove-routes, so the
routing table is not left completely unchanged; (run B) after a restart
with a changed configuration, removing the container leaves the
`a.test` host entry — solely populated by that container — in the table
instead of deleting it, pointing at the removed container forever. -/
theorem claim_C5_cex :
    (runOps "net" routeTable.empty
        [tableOp.add "c00000000001"
          (some ⟨"/n", ["SUB2PORT=,"], [], [], [("net", "10.0.0.2")]⟩)] =
      some ⟨[], [("c00000000001", [])]⟩ ∧
      removeRoutes "c00000000001" ⟨[], [("c00000000001", [])]⟩ =
        ⟨[], []⟩ ∧
      (⟨[], []⟩ : routeTable) ≠ ⟨[], [("c00000000001", [])]⟩) ∧
    runOps "net" routeTable.empty
        [tableOp.add "c00000000001"
          (some ⟨"/n", ["SUB2PORT=a.test"], [], [], [("net", "10.0.0.2")]⟩),
         tableOp.add "c00000000001"
          (some ⟨"/n", ["SUB2PORT=b.test"], [], [], [("net", "10.0.0.2")]⟩),
         tableOp.remove "c00000000001"] =
      some ⟨[("a.test", ⟨[⟨"n", "10.0.0.2", "80"⟩], 0⟩)], []⟩ := by
  exact ⟨⟨by decide, by decide, by decide⟩, by decide⟩

/-- C5 (amended): remove-routes signals no error (it is total), and:
for a container with no reverse-index entry it leaves the routing table
completely unchanged; it never touches the host entry of a hostname not
named in the container's recorded bindings; it deletes the container's
reverse-index entry; and it deletes a host entry whose backends all bear
the container's recorded name and number at most the container's
bindings for that hostname (the claim's `solely populated` case as far
as the bindings still cover the entry — after a configuration change the
bindings list is replaced, so stale backends survive, refuting the
unconditional original claim). -/
theorem claim_C5 :
    (∀ (t : routeTable) (cid : String),
      lookupA t.containers cid = none → removeRoutes cid t = t) ∧
    (∀ (t : routeTable) (cid d : String),
      (∀ b ∈ (lookupA t.containers cid).getD [], b.Domain ≠ d) →
      lookupA (removeRoutes cid t).hosts d = lookupA t.hosts d) ∧
    (∀ (t : routeTable) (cid : String), keysNodup t.containers →
      lookupA (removeRoutes cid t).containers cid = none) ∧
    (∀ (t : routeTable) (cid d n : String) (e : hostEntry),
      keysNodup t.hosts →
      lookupA t.hosts d = some e → e.backends ≠ [] →
      (∀ r ∈ e.backends, r.Name = n) →
      (∀ b ∈ (lookupA t.containers cid).getD [], b.Domain = d → b.Name = n) →
      e.backends.length ≤
        ((lookupA t.containers cid).getD []).countP (fun b => b.Domain = d) →
      lookupA (removeRoutes cid t).hosts d = none) := by
  refine ⟨?_, ?_, ?_, ?_⟩
  · intro t cid h
    show (⟨(((lookupA t.containers cid).getD []).foldl removeBinding t).hosts,
        eraseA ((((lookupA t.containers cid).getD []).foldl removeBinding t)).containers
          cid⟩ : routeTable) = t
    rw [h]
    show (⟨t.hosts, eraseA t.containers cid⟩ : routeTable) = t
    rw [eraseA_of_not_mem t.containers cid h]
  · intro t cid d h
    show lookupA (((lookupA t.containers cid).getD []).foldl removeBinding t).hosts d =
      lookupA t.hosts d
    exact fold_removeBinding_lookup_ne _ t d h
  · intro t cid h
    show lookupA (eraseA
        ((((lookupA t.containers cid).getD []).foldl removeBinding t)).containers cid)
      cid = none
    rw [fold_removeBinding_containers]
    exact lookupA_eraseA_self t.containers cid h
  · intro t cid d n e hnd he hnil hnames hball hle
    show lookupA (((lookupA t.containers cid).getD []).foldl removeBinding t).hosts d =
      none
    exact fold_removeBinding_sole n ((lookupA t.containers cid).getD []) t d hnd hball
      (Or.inr ⟨e, he, hnames, hnil, hle⟩)

/-! ## Claim C9 -/

theorem findCustom_spec (names : List String) :
    findCustom names = "" ↔
      ((∀ nm ∈ names, isDefaultNet nm) ∨
       ∃ pre post, names = pre ++ "" :: post ∧ ∀ nm ∈ pre, isDefaultNet nm) := by
  induction names with
  | nil =>
    simp [findCustom]
  | cons nm rest ih =>
    by_cases hdef : isDefaultNet nm
    · have hcond : ¬ (nm ≠ "bridge" ∧ nm ≠ "host" ∧ nm ≠ "none") := by
        rcases hdef with h | h | h <;> simp [h]
      rw [show findCustom (nm :: rest) = findCustom rest from by
        simp [findCustom, hcond], ih]
      constructor
      · rintro (hall | ⟨pre, post, heq, hpre⟩)
        · refine Or.inl ?_
          intro x hx
          rcases List.mem_cons.mp hx with h | h
          · rw [h]; exact hdef
          · exact hall x h
        · refine Or.inr ⟨nm :: pre, post, by rw [heq]; rfl, ?_⟩
          intro x hx
          rcases List.mem_cons.mp hx with h | h
          · rw [h]; exact hdef
          · exact hpre x h
      · rintro (hall | ⟨pre, post, heq, hpre⟩)
        · exact Or.inl (fun x hx => hall x (List.mem_cons_of_mem _ hx))
        · cases pre with
          | nil =>
            simp only [List.nil_append, List.cons.injEq] at heq
            exfalso
            rw [heq.1] at hdef
            rcases hdef with h | h | h <;> simp at h
          | cons q pre' =>
            simp only [List.cons_append, List.cons.injEq] at heq
            exact Or.inr ⟨pre', post, heq.2,
              fun x hx => hpre x (List.mem_cons_of_mem _ hx)⟩
    · have hcond : nm ≠ "bridge" ∧ nm ≠ "host" ∧ nm ≠ "none" := by
        refine ⟨?_, ?_, ?_⟩ <;> intro h <;> exact hdef (by simp [h, isDefaultNet])
      rw [show findCustom (nm :: rest) = nm from by simp [findCustom, hcond]]
      constructor
      · intro hnm
        exact Or.inr ⟨[], rest, by rw [hnm]; rfl, by simp⟩
      · rintro (hall | ⟨pre, post, heq, hpre⟩)
        · exact absurd (hall nm (List.mem_cons_self _ _)) hdef
        · cases pre with
          | nil =>
            simp only [List.nil_append, List.cons.injEq] at heq
            exact heq.1
          | cons q pre' =>
            simp only [List.cons_append, List.cons.injEq] at heq
            exact absurd (heq.1 ▸ hpre q (List.mem_cons_self _ _)) hdef

theorem findCustom_not_default (names : List String)
    (h : findCustom names ≠ "") : ¬ isDefaultNet (findCustom names) := by
  induction names with
  | nil => exact absurd rfl h
  | cons nm rest ih =>
    by_cases hcond : nm ≠ "bridge" ∧ nm ≠ "host" ∧ nm ≠ "none"
    · rw [show findCustom (nm :: rest) = nm from by simp [findCustom, hcond]]
      rcases hcond with ⟨h1, h2, h3⟩
      rintro (h | h | h)
      · exact h1 h
      · exact h2 h
      · exact h3 h
    · rw [show findCustom (nm :: rest) = findCustom rest from by
        simp [findCustom, hcond]] at h ⊢
      exact ih h

theorem firstHostPort_mem (g : List portBinding) (p : String)
    (h : firstHostPort g = some p) :
    p ∈ g.filterMap (fun b => if b.HostPort = "" then none else some b.HostPort) := by
  induction g with
  | nil => cases h
  | cons b rest ih =>
    by_cases hb : b.HostPort = ""
    · have h' : firstHostPort rest = some p := by
        simpa [firstHostPort, hb] using h
      have hstep : (b :: rest).filterMap
            (fun x => if x.HostPort = "" then none else some x.HostPort) =
          rest.filterMap (fun x => if x.HostPort = "" then none else some x.HostPort) := by
        simp [List.filterMap_cons, hb]
      rw [hstep]
      exact ih h'
    · have h' : b.HostPort = p := by
        simpa [firstHostPort, hb] using h
      have hstep : (b :: rest).filterMap
            (fun x => if x.HostPort = "" then none else some x.HostPort) =
          b.HostPort :: rest.filterMap
            (fun x => if x.HostPort = "" then none else some x.HostPort) := by
        simp [List.filterMap_cons, hb]
      rw [hstep, h']
      exact List.mem_cons_self _ _

theorem detectPortLoop_mem (groups : List (List portBinding)) :
    ∀ port, detectPortLoop groups port = port ∨
      detectPortLoop groups port ∈ groups.flatMap
        (fun g => g.filterMap
          (fun b => if b.HostPort = "" then none else some b.HostPort)) := by
  induction groups with
  | nil => intro port; exact Or.inl rfl
  | cons g rest ih =>
    intro port
    cases hf : firstHostPort g with
    | none =>
      by_cases hp : ¬ port = "80"
      · rw [show detectPortLoop (g :: rest) port = port from by
          simp [detectPortLoop, hf, hp]]
        exact Or.inl rfl
      · rw [show detectPortLoop (g :: rest) port = detectPortLoop rest port from by
          simp [detectPortLoop, hf, hp]]
        rcases ih port with h | h
        · exact Or.inl h
        · refine Or.inr ?_
          rw [List.flatMap_cons]
          exact List.mem_append_right _ h
    | some p =>
      have hpm : p ∈ g.filterMap
          (fun b => if b.HostPort = "" then none else some b.HostPort) :=
        firstHostPort_mem g p hf
      by_cases hp : ¬ p = "80"
      · rw [show detectPortLoop (g :: rest) port = p from by
          simp [detectPortLoop, hf, hp]]
        refine Or.inr ?_
        rw [List.flatMap_cons]
        exact List.mem_append_left _ hpm
      · rw [show detectPortLoop (g :: rest) port = detectPortLoop rest p from by
          simp [detectPortLoop, hf, hp]]
        rcases ih p with h | h
        · refine Or.inr ?_
          rw [List.flatMap_cons, h]
          exact List.mem_append_left _ hpm
        · refine Or.inr ?_
          rw [List.flatMap_cons]
          exact List.mem_append_right _ h

/-- C9, counterexample to `error iff every network is a built-in
default`: a container attached to a single network whose name is the
empty string — not one of `bridge`, `host`, `none` — still makes
`detectNetwork` fail, because the loop's sentinel for `no custom network
found` is the empty name itself. -/
theorem claim_C9_cex :
    detectNetwork ⟨"", [], [], [], [("", "10.0.0.9")]⟩ "c1" =
      Except.error "no custom network found on container c1" ∧
    ¬ isDefaultNet "" := by
  constructor
  · rfl
  · decide

/-- C9 (amended): `detectNetwork` errors iff either every attached
network is a built-in default (`bridge`, `host`, `none`) or the first
non-default network in iteration order bears the empty name; on success
it returns a non-default, non-empty network name together with a port
that is either an externally bound host port taken from the port
bindings or the default `"80"` (in particular `"80"` whenever no binding
carries a host port). -/
theorem claim_C9 (c : dockerInspect) (cid : String) :
    ((∃ msg, detectNetwork c cid = Except.error msg) ↔
      ((∀ nm ∈ c.Networks.map Prod.fst, isDefaultNet nm) ∨
       ∃ pre post, c.Networks.map Prod.fst = pre ++ "" :: post ∧
         ∀ nm ∈ pre, isDefaultNet nm)) ∧
    (∀ nw p, detectNetwork c cid = Except.ok (nw, p) →
      ¬ isDefaultNet nw ∧ nw ≠ "" ∧ (p = "80" ∨ p ∈ hostPorts c)) := by
  constructor
  · rw [← findCustom_spec]
    by_cases hfc : findCustom (c.Networks.map Prod.fst) = ""
    · simp [detectNetwork, hfc]
    · simp [detectNetwork, hfc]
  · intro nw p hok
    by_cases hfc : findCustom (c.Networks.map Prod.fst) = ""
    · simp [detectNetwork, hfc] at hok
    · simp only [detectNetwork, hfc, if_false, Except.ok.injEq, Prod.mk.injEq] at hok
      obtain ⟨hnw, hp⟩ := hok
      refine ⟨?_, ?_, ?_⟩
      · rw [← hnw]
        exact findCustom_not_default _ hfc
      · rw [← hnw]
        exact hfc
      · rw [← hp]
        rcases detectPortLoop_mem (c.Ports.map Prod.snd) "80" with h | h
        · exact Or.inl h
        · exact Or.inr h

/-! ## Claim C8 -/

/-- C8: a stream whose first decode fails mutates nothing (the consumer
returns the table untouched), a failure after `evs` well-decoded events
leaves exactly the table the events produced (the error path itself adds
no mutation), the reconnect loop continues from the untouched table after
a failed stream, and the backoff before reopening is the fixed one time
unit (`time.Sleep(time.Second)`). -/
theorem claim_C8 (net : String) (fetch : String → Option dockerInspect)
    (t : routeTable) (evs : List dockerEvent) (junk : List (Option dockerEvent))
    (cycles : List (List (Option dockerEvent))) :
    eventLoop net fetch t (evs.map some ++ none :: junk) =
      eventLoop net fetch t (evs.map some) ∧
    eventLoop net fetch t (none :: junk) = some t ∧
    watchLoop net fetch t ((none :: junk) :: cycles) = watchLoop net fetch t cycles ∧
    backoffSeconds = 1 := by
  refine ⟨?_, rfl, rfl, rfl⟩
  induction evs generalizing t with
  | nil => rfl
  | cons ev rest ih =>
    show (match processEvent net fetch t ev with
      | none => none
      | some t' => eventLoop net fetch t' (rest.map some ++ none :: junk)) =
      (match processEvent net fetch t ev with
      | none => none
      | some t' => eventLoop net fetch t' (rest.map some))
    cases processEvent net fetch t ev with
    | none => rfl
    | some t' => exact ih t'

/-! ## Claim C10 -/

/-- C10, counterexample: a metadata-fetch failure for a container
identifier shorter than 12 bytes panics (the error path slices
`containerID[:12]` before logging), instead of logging and returning. -/
theorem claim_C10_cex :
    addRoutes "net" "abc" none routeTable.empty = none := by
  decide

/-- C10 (amended): when the metadata fetch fails and the container
identifier is at least 12 bytes long, `addRoutes` logs and returns
without panicking, leaving the routing table unchanged; for shorter
identifiers the error path panics on the out-of-range slice
`containerID[:12]`. -/
theorem claim_C10 (net cid : String) (t : routeTable)
    (h : 12 ≤ cid.utf8ByteSize) :
    addRoutes net cid none t = some t := by
  simp [addRoutes, Nat.not_lt.mpr h]

/-! ## Witnesses -/

/-- Witness for C1 at a concrete two-backend entry. -/
theorem claim_C1_witness :
    (lookupA (routeTable.mk
        [("app.test", ⟨[⟨"w1", "10.0.0.2", "80"⟩, ⟨"w2", "10.0.0.3", "80"⟩], 0⟩)]
        []).hosts (stripPort "app.test:443") =
      some ⟨[⟨"w1", "10.0.0.2", "80"⟩, ⟨"w2", "10.0.0.3", "80"⟩], 0⟩) ∧
    ((⟨[⟨"w1", "10.0.0.2", "80"⟩, ⟨"w2", "10.0.0.3", "80"⟩], 0⟩ : hostEntry).counter = 0) ∧
    (([⟨"w1", "10.0.0.2", "80"⟩, ⟨"w2", "10.0.0.3", "80"⟩] : List route) ≠ []) ∧
    (([⟨"w1", "10.0.0.2", "80"⟩, ⟨"w2", "10.0.0.3", "80"⟩] : List route).length < 2 ^ 64) ∧
    ((∀ i, i ≤ ([⟨"w1", "10.0.0.2", "80"⟩, ⟨"w2", "10.0.0.3", "80"⟩] : List route).length →
      (proxyN (routeTable.mk
          [("app.test", ⟨[⟨"w1", "10.0.0.2", "80"⟩, ⟨"w2", "10.0.0.3", "80"⟩], 0⟩)] [])
        "app.test:443" i).bind
          (fun s => lookupA s.hosts (stripPort "app.test:443")) =
        some ⟨[⟨"w1", "10.0.0.2", "80"⟩, ⟨"w2", "10.0.0.3", "80"⟩], i⟩) ∧
    (∀ i, i < ([⟨"w1", "10.0.0.2", "80"⟩, ⟨"w2", "10.0.0.3", "80"⟩] : List route).length →
      (proxyN (routeTable.mk
          [("app.test", ⟨[⟨"w1", "10.0.0.2", "80"⟩, ⟨"w2", "10.0.0.3", "80"⟩], 0⟩)] [])
        "app.test:443" i).bind (fun s => (proxy s "app.test:443").map Prod.snd) =
        (([⟨"w1", "10.0.0.2", "80"⟩, ⟨"w2", "10.0.0.3", "80"⟩] : List route)[i]?).map
          Response.forward) ∧
    ((proxyN (routeTable.mk
        [("app.test", ⟨[⟨"w1", "10.0.0.2", "80"⟩, ⟨"w2", "10.0.0.3", "80"⟩], 0⟩)] [])
      "app.test:443"
      ([⟨"w1", "10.0.0.2", "80"⟩, ⟨"w2", "10.0.0.3", "80"⟩] : List route).length).bind
        (fun s => (proxy s "app.test:443").map Prod.snd) =
      (([⟨"w1", "10.0.0.2", "80"⟩, ⟨"w2", "10.0.0.3", "80"⟩] : List route)[0]?).map
        Response.forward)) :=
  ⟨by decide, by decide, by decide, by decide,
    claim_C1 (routeTable.mk
        [("app.test", ⟨[⟨"w1", "10.0.0.2", "80"⟩, ⟨"w2", "10.0.0.3", "80"⟩], 0⟩)] [])
      "app.test:443" ⟨[⟨"w1", "10.0.0.2", "80"⟩, ⟨"w2", "10.0.0.3", "80"⟩], 0⟩
      (by decide) (by decide) (by decide) (by decide)⟩

/-- Witness for C2 at a single concrete add. -/
theorem claim_C2_witness :
    (runOps "net" routeTable.empty
        [tableOp.add "c00000000001"
          (some ⟨"/n", ["SUB2PORT=app.test"], [], [], [("net", "10.0.0.2")]⟩)] =
      some ⟨[("app.test", ⟨[⟨"n", "10.0.0.2", "80"⟩], 0⟩)],
        [("c00000000001", [⟨"app.test", "n"⟩])]⟩) ∧
    (lookupA (routeTable.mk [("app.test", ⟨[⟨"n", "10.0.0.2", "80"⟩], 0⟩)]
        [("c00000000001", [⟨"app.test", "n"⟩])]).containers "c00000000001" =
      some [⟨"app.test", "n"⟩]) ∧
    ((⟨"app.test", "n"⟩ : binding) ∈ [(⟨"app.test", "n"⟩ : binding)]) ∧
    1 ≤ backendCount
      ⟨[("app.test", ⟨[⟨"n", "10.0.0.2", "80"⟩], 0⟩)],
        [("c00000000001", [⟨"app.test", "n"⟩])]⟩ "app.test" "n" :=
  ⟨by decide, by decide, by decide,
    claim_C2 "net"
      [tableOp.add "c00000000001"
        (some ⟨"/n", ["SUB2PORT=app.test"], [], [], [("net", "10.0.0.2")]⟩)]
      ⟨[("app.test", ⟨[⟨"n", "10.0.0.2", "80"⟩], 0⟩)],
        [("c00000000001", [⟨"app.test", "n"⟩])]⟩
      "c00000000001" [⟨"app.test", "n"⟩] ⟨"app.test", "n"⟩
      (by decide) (by decide) (by decide)⟩

/-- Witness for C3 at a concrete container configuration. -/
theorem claim_C3_witness :
    (sub2portConfig
        (⟨"/n", ["SUB2PORT=app.test"], [], [], [("net", "10.0.0.2")]⟩ :
          dockerInspect).Env ≠ "") ∧
    (lookupA (⟨"/n", ["SUB2PORT=app.test"], [], [], [("net", "10.0.0.2")]⟩ :
        dockerInspect).Networks "net" = some "10.0.0.2") ∧
    (("10.0.0.2" : String) ≠ "") ∧
    ((∀ d, lookupA (addRoutesOk "net" "c00000000001"
        ⟨"/n", ["SUB2PORT=app.test"], [], [], [("net", "10.0.0.2")]⟩
        (addRoutesOk "net" "c00000000001"
          ⟨"/n", ["SUB2PORT=app.test"], [], [], [("net", "10.0.0.2")]⟩
          routeTable.empty)).hosts d =
      combineEntry (lookupA routeTable.empty.hosts d)
        (contrib
            (trimSlash (⟨"/n", ["SUB2PORT=app.test"], [], [], [("net", "10.0.0.2")]⟩ :
              dockerInspect).Name) "10.0.0.2"
            (parseEntries
              (sub2portConfig (⟨"/n", ["SUB2PORT=app.test"], [], [], [("net", "10.0.0.2")]⟩ :
                dockerInspect).Env)
              (defaultPortOf (⟨"/n", ["SUB2PORT=app.test"], [], [], [("net", "10.0.0.2")]⟩ :
                dockerInspect).ExposedPorts)) d ++
          contrib
            (trimSlash (⟨"/n", ["SUB2PORT=app.test"], [], [], [("net", "10.0.0.2")]⟩ :
              dockerInspect).Name) "10.0.0.2"
            (parseEntries
              (sub2portConfig (⟨"/n", ["SUB2PORT=app.test"], [], [], [("net", "10.0.0.2")]⟩ :
                dockerInspect).Env)
              (defaultPortOf (⟨"/n", ["SUB2PORT=app.test"], [], [], [("net", "10.0.0.2")]⟩ :
                dockerInspect).ExposedPorts)) d)) ∧
    lookupA (addRoutesOk "net" "c00000000001"
        ⟨"/n", ["SUB2PORT=app.test"], [], [], [("net", "10.0.0.2")]⟩
        (addRoutesOk "net" "c00000000001"
          ⟨"/n", ["SUB2PORT=app.test"], [], [], [("net", "10.0.0.2")]⟩
          routeTable.empty)).containers "c00000000001" =
      some ((parseEntries
          (sub2portConfig (⟨"/n", ["SUB2PORT=app.test"], [], [], [("net", "10.0.0.2")]⟩ :
            dockerInspect).Env)
          (defaultPortOf (⟨"/n", ["SUB2PORT=app.test"], [], [], [("net", "10.0.0.2")]⟩ :
            dockerInspect).ExposedPorts)).map
        (fun e => ⟨e.1,
          trimSlash (⟨"/n", ["SUB2PORT=app.test"], [], [], [("net", "10.0.0.2")]⟩ :
            dockerInspect).Name⟩))) :=
  ⟨by decide, by decide, by decide,
    claim_C3 "net" "c00000000001"
      ⟨"/n", ["SUB2PORT=app.test"], [], [], [("net", "10.0.0.2")]⟩
      routeTable.empty "10.0.0.2" (by decide) (by decide) (by decide)⟩

/-- Witness for C4 after a concrete add. -/
theorem claim_C4_witness :
    (runOps "net" routeTable.empty
        [tableOp.add "c00000000001"
          (some ⟨"/n", ["SUB2PORT=app.test"], [], [], [("net", "10.0.0.2")]⟩)] =
      some ⟨[("app.test", ⟨[⟨"n", "10.0.0.2", "80"⟩], 0⟩)],
        [("c00000000001", [⟨"app.test", "n"⟩])]⟩) ∧
    (lookupA (routeTable.mk [("app.test", ⟨[⟨"n", "10.0.0.2", "80"⟩], 0⟩)]
        [("c00000000001", [⟨"app.test", "n"⟩])]).hosts "app.test" =
      some ⟨[⟨"n", "10.0.0.2", "80"⟩], 0⟩) ∧
    ((⟨[⟨"n", "10.0.0.2", "80"⟩], 0⟩ : hostEntry).backends ≠ []) :=
  ⟨by decide, by decide,
    claim_C4 "net"
      [tableOp.add "c00000000001"
        (some ⟨"/n", ["SUB2PORT=app.test"], [], [], [("net", "10.0.0.2")]⟩)]
      ⟨[("app.test", ⟨[⟨"n", "10.0.0.2", "80"⟩], 0⟩)],
        [("c00000000001", [⟨"app.test", "n"⟩])]⟩
      "app.test" ⟨[⟨"n", "10.0.0.2", "80"⟩], 0⟩ (by decide) (by decide)⟩

/-- Witness for C5 (the sole-cover deletion part) at a concrete table. -/
theorem claim_C5_witness :
    (keysNodup (routeTable.mk [("a.test", ⟨[⟨"n", "10.0.0.2", "80"⟩], 0⟩)]
        [("c00000000001", [⟨"a.test", "n"⟩])]).hosts) ∧
    lookupA (removeRoutes "c00000000001"
        ⟨[("a.test", ⟨[⟨"n", "10.0.0.2", "80"⟩], 0⟩)],
          [("c00000000001", [⟨"a.test", "n"⟩])]⟩).hosts "a.test" = none :=
  ⟨by decide,
    claim_C5.2.2.2
      ⟨[("a.test", ⟨[⟨"n", "10.0.0.2", "80"⟩], 0⟩)],
        [("c00000000001", [⟨"a.test", "n"⟩])]⟩
      "c00000000001" "a.test" "n" ⟨[⟨"n", "10.0.0.2", "80"⟩], 0⟩
      (by decide) (by decide) (by decide) (by decide) (by decide) (by decide)⟩

/-- Witness for C6 at a concrete empty table. -/
theorem claim_C6_witness :
    (lookupA (routeTable.empty).hosts (stripPort "unknown.test") = none) ∧
    proxy routeTable.empty "unknown.test" =
      some (routeTable.empty, .badGateway ("no backend for " ++ stripPort "unknown.test")) :=
  ⟨by decide, claim_C6 routeTable.empty "unknown.test" (by decide)⟩

/-- Witness for C7 at a concrete container with a `hostname:port` entry,
a bare hostname entry and one exposed port. -/
theorem claim_C7_witness :
    (sub2portConfig
        (⟨"/n", ["SUB2PORT=a.test,b.test:9001"], ["8080/tcp"], [],
          [("net", "10.0.0.2")]⟩ : dockerInspect).Env ≠ "") ∧
    (lookupA (⟨"/n", ["SUB2PORT=a.test,b.test:9001"], ["8080/tcp"], [],
        [("net", "10.0.0.2")]⟩ : dockerInspect).Networks "net" = some "10.0.0.2") ∧
    (("10.0.0.2" : String) ≠ "") ∧
    lookupA (addRoutesOk "net" "c00000000001"
        ⟨"/n", ["SUB2PORT=a.test,b.test:9001"], ["8080/tcp"], [],
          [("net", "10.0.0.2")]⟩ routeTable.empty).hosts "b.test" =
      combineEntry (lookupA routeTable.empty.hosts "b.test")
        (specParsedBackends
          (sub2portConfig (⟨"/n", ["SUB2PORT=a.test,b.test:9001"], ["8080/tcp"], [],
            [("net", "10.0.0.2")]⟩ : dockerInspect).Env)
          (defaultPortOf (⟨"/n", ["SUB2PORT=a.test,b.test:9001"], ["8080/tcp"], [],
            [("net", "10.0.0.2")]⟩ : dockerInspect).ExposedPorts)
          (trimSlash (⟨"/n", ["SUB2PORT=a.test,b.test:9001"], ["8080/tcp"], [],
            [("net", "10.0.0.2")]⟩ : dockerInspect).Name) "10.0.0.2" "b.test") :=
  ⟨by decide, by decide, by decide,
    claim_C7 "net" "c00000000001"
      ⟨"/n", ["SUB2PORT=a.test,b.test:9001"], ["8080/tcp"], [], [("net", "10.0.0.2")]⟩
      routeTable.empty "10.0.0.2" (by decide) (by decide) (by decide) "b.test"⟩

/-- Witness for C9: a concrete container with one custom network and one
bound host port, run through the success branch of the theorem. -/
theorem claim_C9_witness :
    ¬ isDefaultNet "mynet" ∧ ("mynet" : String) ≠ "" ∧
      (("8080" : String) = "80" ∨ "8080" ∈ hostPorts
        ⟨"", [], [], [("80/tcp", [⟨"0.0.0.0", "8080"⟩])], [("mynet", "10.0.0.3")]⟩) :=
  (claim_C9 ⟨"", [], [], [("80/tcp", [⟨"0.0.0.0", "8080"⟩])], [("mynet", "10.0.0.3")]⟩
    "c1").2 "mynet" "8080" (by rfl)

/-- Witness for C10 at a concrete 12-byte identifier. -/
theorem claim_C10_witness :
    12 ≤ ("c00000000001" : String).utf8ByteSize ∧
      addRoutes "net" "c00000000001" none routeTable.empty = some routeTable.empty :=
  ⟨by decide, claim_C10 "net" "c00000000001" routeTable.empty (by decide)⟩

end Sub2Port
